import Mathlib

/-!
# Verification of the HVM license maker (`lmaker.py`)

A shallow embedding of the license issuing/validation script.  Bytes are
modelled as `Nat` values `< 256`; Python `str` values are modelled as lists
of Unicode scalar values (`Nat` code points).  Each definition mirrors the
corresponding Python function or library primitive used by the script:

* `bytesHex` / `bytesFromhex`  — `bytes.hex()` / `bytes.fromhex`
  (whitespace-skipping between byte pairs, as in CPython),
* `b64encode` / `b64decodeStr` — `base64.b64encode` / `base64.b64decode`,
* `rsplit2`                    — `bytes.rsplit(b'||', 1)` (returning `none`
  when the delimiter is absent, where Python unpacking raises `ValueError`),
* `utf8EncodeStr` / `utf8Decode` — `str.encode('utf-8')` / `bytes.decode()`,
* `jsonDumpsClaims` / `jsonLoads` — `json.dumps` on the license dict and
  `json.loads` (strict mode, as used by the script),
* `skSign` / `vkVerify` / `get_public_hex` / `onCurve` — a symbolic model
  of the `ecdsa` library (NIST384p): `SigningKey.sign` draws a fresh nonce
  per call (injected as an explicit argument, like the ambient clock) and
  `sigencode_string` emits the raw 96-byte `r ‖ s` concatenation, whose
  bytes range over all values — in particular a signature can contain the
  container delimiter `b'||'` or start with `b'|'`.  Public keys are the
  raw 96-byte `x ‖ y` point encoding, and `VerifyingKey.from_string`
  checks both the length and the real NIST-384 curve equation.  The
  signing equation itself (`s = (key + H(msg) + r) mod n`) is an abstract
  stand-in for the ECDSA equation: it preserves nonce dependence, raw
  byte-level encoding, and message/key binding, but (like any computable
  model) not unforgeability.
-/

/-- A list of `Nat`s is a byte string when every entry is `< 256`. -/
def isBytes (l : List Nat) : Prop := ∀ x ∈ l, x < 256

instance (l : List Nat) : Decidable (isBytes l) := by
  unfold isBytes; infer_instance

/-- `List.flatMap`, defined locally for stable equations. -/
def concatMap (f : α → List β) : List α → List β
  | [] => []
  | a :: l => f a ++ concatMap f l

/-! ## Hexadecimal (`bytes.hex` / `bytes.fromhex`) -/

/-- Lower-case hex digit for a nibble, as in `bytes.hex()`. -/
def hexDigitChar (d : Nat) : Nat := if d < 10 then 48 + d else 87 + d

/-- Value of a hex digit character (`0-9`, `a-f`, `A-F`), as accepted by
`bytes.fromhex` and `int(_, 16)`. -/
def hexVal (c : Nat) : Option Nat :=
  if 48 ≤ c ∧ c ≤ 57 then some (c - 48)
  else if 97 ≤ c ∧ c ≤ 102 then some (c - 87)
  else if 65 ≤ c ∧ c ≤ 70 then some (c - 55)
  else none

/-- `bytes.hex()`: two lower-case hex characters per byte. -/
def bytesHex (bs : List Nat) : List Nat :=
  concatMap (fun b => [hexDigitChar (b / 16), hexDigitChar (b % 16)]) bs

/-- ASCII whitespace skipped by `bytes.fromhex` between byte pairs
(CPython 3.11+ skips all six ASCII whitespace characters). -/
def pyWs (c : Nat) : Bool :=
  c == 32 || c == 9 || c == 10 || c == 11 || c == 12 || c == 13

/-- `bytes.fromhex`: pairs of hex digits, with ASCII whitespace skipped
*between* pairs (not inside one).  A non-digit, whitespace inside a pair,
or a dangling digit yields `none` (Python raises `ValueError`). -/
def bytesFromhex : List Nat → Option (List Nat)
  | [] => some []
  | c1 :: rest =>
    if pyWs c1 then bytesFromhex rest
    else
      match rest with
      | [] => none
      | c2 :: rest2 =>
        match hexVal c1, hexVal c2, bytesFromhex rest2 with
        | some h, some l, some bs => some ((h * 16 + l) :: bs)
        | _, _, _ => none

/-! ## Fixed-width big-endian byte encoding of naturals

Used to model the `ecdsa` library's fixed 96-byte encoding of a NIST384p
public point (`VerifyingKey.to_string` / `from_string`). -/

/-- `k`-byte big-endian encoding of `n` (truncating above `256^k`). -/
def natToBE : Nat → Nat → List Nat
  | 0, _ => []
  | k + 1, n => natToBE k (n / 256) ++ [n % 256]

/-- Big-endian bytes to natural number. -/
def beToNat (bs : List Nat) : Nat := bs.foldl (fun a b => a * 256 + b) 0

/-! ## Base64 (`base64.b64encode` / `base64.b64decode`) -/

/-- Standard base64 alphabet character for a 6-bit value. -/
def b64Char (n : Nat) : Nat :=
  if n < 26 then 65 + n
  else if n < 52 then 71 + n
  else if n < 62 then n - 4
  else if n = 62 then 43
  else 47

/-- Inverse of the base64 alphabet (`=` and other characters map to `none`). -/
def b64Val (c : Nat) : Option Nat :=
  if 65 ≤ c ∧ c ≤ 90 then some (c - 65)
  else if 97 ≤ c ∧ c ≤ 122 then some (c - 71)
  else if 48 ≤ c ∧ c ≤ 57 then some (c + 4)
  else if c = 43 then some 62
  else if c = 47 then some 63
  else none

/-- `base64.b64encode`: 3 bytes to 4 alphabet characters, `=`-padded. -/
def b64encode : List Nat → List Nat
  | a :: b :: c :: rest =>
    b64Char (a / 4) :: b64Char (a % 4 * 16 + b / 16) ::
    b64Char (b % 16 * 4 + c / 64) :: b64Char (c % 64) :: b64encode rest
  | [a, b] => [b64Char (a / 4), b64Char (a % 4 * 16 + b / 16), b64Char (b % 16 * 4), 61]
  | [a] => [b64Char (a / 4), b64Char (a % 4 * 16), 61, 61]
  | [] => []

/-- Base64 decoding of a stream of alphabet/`=` characters in groups of
four.  Dangling bits in a padded group are discarded, as `binascii` does;
a group count that is not a multiple of four is an error (Python raises
`binascii.Error: Invalid padding`, a `ValueError`). -/
def b64decodeCore : List Nat → Option (List Nat)
  | [] => some []
  | c1 :: c2 :: c3 :: c4 :: rest =>
    match b64Val c1, b64Val c2 with
    | some v1, some v2 =>
      if c3 = 61 then
        if c4 = 61 ∧ rest = [] then some [v1 * 4 + v2 / 16] else none
      else
        match b64Val c3 with
        | some v3 =>
          if c4 = 61 then
            if rest = [] then some [v1 * 4 + v2 / 16, v2 % 16 * 16 + v3 / 4] else none
          else
            match b64Val c4 with
            | some v4 =>
              (b64decodeCore rest).map
                (fun bs => (v1 * 4 + v2 / 16) :: (v2 % 16 * 16 + v3 / 4) :: (v3 % 4 * 64 + v4) :: bs)
            | none => none
        | none => none
    | _, _ => none
  | _ => none

/-- `base64.b64decode` applied to a Python `str`: the string must be ASCII
(else `UnicodeEncodeError`, a `ValueError`); characters outside the
alphabet and `=` are discarded (`validate=False`), then groups of four are
decoded. -/
def b64decodeStr (s : List Nat) : Option (List Nat) :=
  if s.all (· < 128) then
    b64decodeCore (s.filter (fun c => (b64Val c).isSome || c == 61))
  else none

/-! ## `bytes.rsplit(b'||', 1)` -/

/-- Split on the *last* occurrence of the two-byte delimiter `b'||'`
(byte 124 twice); `none` when the delimiter does not occur (where the
script's tuple unpacking raises `ValueError`). -/
def rsplit2 : List Nat → Option (List Nat × List Nat)
  | [] => none
  | a :: rest =>
    match rsplit2 rest with
    | some (p, q) => some (a :: p, q)
    | none =>
      if a = 124 ∧ rest.head? = some 124 then some ([], rest.tail) else none

/-- No two adjacent `124` (`'|'`) bytes occur in the list. -/
def noDD : List Nat → Bool
  | [] => true
  | [_] => true
  | a :: b :: rest => if a = 124 ∧ b = 124 then false else noDD (b :: rest)

/-! ## UTF-8 (`str.encode('utf-8')` / `bytes.decode()`) -/

/-- UTF-8 encoding of one code point.  (Python raises on lone surrogates;
the script only ever encodes the ASCII output of `json.dumps`, so that
branch is never reached and surrogates are encoded naively here.) -/
def utf8EncodeChar (c : Nat) : List Nat :=
  if c < 128 then [c]
  else if c < 2048 then [192 + c / 64, 128 + c % 64]
  else if c < 65536 then [224 + c / 4096, 128 + c / 64 % 64, 128 + c % 64]
  else [240 + c / 262144, 128 + c / 4096 % 64, 128 + c / 64 % 64, 128 + c % 64]

/-- `str.encode('utf-8')` over a list of code points. -/
def utf8EncodeStr (s : List Nat) : List Nat := concatMap utf8EncodeChar s

/-- Is `b` a UTF-8 continuation byte? -/
def utf8Cont (b : Nat) : Bool := 128 ≤ b ∧ b < 192

/-- One multi-byte UTF-8 sequence (lead byte `b ≥ 128` plus its
continuation bytes from `rest`): rejects stray continuation bytes,
overlong forms, surrogates and values above `0x10FFFF`.  Returns the code
point and the remaining input. -/
def utf8Step (b : Nat) (rest : List Nat) : Option (Nat × List Nat) :=
  if b < 194 then none
  else if b < 224 then
    match rest with
    | b2 :: r2 =>
      if utf8Cont b2 then some ((b - 192) * 64 + (b2 - 128), r2) else none
    | [] => none
  else if b < 240 then
    match rest with
    | b2 :: b3 :: r2 =>
      if utf8Cont b2 ∧ utf8Cont b3 ∧ (b = 224 → 160 ≤ b2) ∧ (b = 237 → b2 < 160) then
        some ((b - 224) * 4096 + (b2 - 128) * 64 + (b3 - 128), r2)
      else none
    | _ => none
  else if b < 245 then
    match rest with
    | b2 :: b3 :: b4 :: r2 =>
      if utf8Cont b2 ∧ utf8Cont b3 ∧ utf8Cont b4 ∧
          (b = 240 → 144 ≤ b2) ∧ (b = 244 → b2 < 144) then
        some ((b - 240) * 262144 + (b2 - 128) * 4096 + (b3 - 128) * 64 + (b4 - 128), r2)
      else none
    | _ => none
  else none

/-- Fuel-indexed UTF-8 decoding loop; every fuel decrement consumes at
least one input byte, so any fuel above the input length is enough. -/
def utf8DecodeF : Nat → List Nat → Option (List Nat)
  | 0, _ => none
  | _ + 1, [] => some []
  | fuel + 1, b :: rest =>
    if b < 128 then (utf8DecodeF fuel rest).map (b :: ·)
    else
      match utf8Step b rest with
      | some (u, r2) => (utf8DecodeF fuel r2).map (u :: ·)
      | none => none

/-- `bytes.decode()` (UTF-8, strict); a `none` models
`UnicodeDecodeError`, a `ValueError`. -/
def utf8Decode (l : List Nat) : Option (List Nat) := utf8DecodeF (l.length + 1) l

/-! ## Decimal representations -/

/-- Decimal digit characters of a natural number, most significant first,
with an explicit fuel bound (any fuel above the digit count agrees). -/
def natDigitsF : Nat → Nat → List Nat
  | 0, _ => []
  | f + 1, n => if n < 10 then [48 + n] else natDigitsF f (n / 10) ++ [48 + n % 10]

/-- Decimal digit characters of a natural number, most significant first. -/
def natDigits (n : Nat) : List Nat := natDigitsF (n + 1) n

/-- Value of a list of decimal digit characters, most significant first. -/
def ofDigits (ds : List Nat) : Nat := ds.foldl (fun a c => a * 10 + (c - 48)) 0

/-- Python `repr`/`str` of an `int`, as a list of code points. -/
def intRepr (d : Int) : List Nat :=
  if d < 0 then 45 :: natDigits d.natAbs else natDigits d.toNat

/-! ## JSON (`json.dumps` / `json.loads`)

`json.dumps` is modelled only on the shape the script serialises (the
four-field license dict, default separators, `ensure_ascii=True`);
`json.loads` is a general value parser mirroring the pure-Python decoder in
strict mode: escape handling including surrogate pairs, leading-zero-free
numbers, `true`/`false`/`null`/`NaN`/`Infinity`/`-Infinity` constants, and
rejection of raw control characters inside strings. -/

/-- JSON values.  Floats are carried as their literal characters; the
script never inspects a float value. -/
inductive JVal where
  | obj (kvs : List (List Nat × JVal))
  | arr (xs : List JVal)
  | str (s : List Nat)
  | num (n : Int)
  | fnum (lit : List Nat)
  | bool (b : Bool)
  | null

/-- `json.dumps` escaping of one code point (`ensure_ascii=True`): the
shorthand escapes, `\u` escapes for other control and non-ASCII
characters, surrogate pairs above `0xFFFF`. -/
def escChar (c : Nat) : List Nat :=
  if c = 34 then [92, 34]
  else if c = 92 then [92, 92]
  else if c = 8 then [92, 98]
  else if c = 9 then [92, 116]
  else if c = 10 then [92, 110]
  else if c = 12 then [92, 102]
  else if c = 13 then [92, 114]
  else if c < 32 then
    [92, 117, hexDigitChar (c / 4096 % 16), hexDigitChar (c / 256 % 16),
     hexDigitChar (c / 16 % 16), hexDigitChar (c % 16)]
  else if c < 127 then [c]
  else if c < 65536 then
    [92, 117, hexDigitChar (c / 4096 % 16), hexDigitChar (c / 256 % 16),
     hexDigitChar (c / 16 % 16), hexDigitChar (c % 16)]
  else
    [92, 117, hexDigitChar ((55296 + (c - 65536) / 1024) / 4096 % 16),
     hexDigitChar ((55296 + (c - 65536) / 1024) / 256 % 16),
     hexDigitChar ((55296 + (c - 65536) / 1024) / 16 % 16),
     hexDigitChar ((55296 + (c - 65536) / 1024) % 16),
     92, 117, hexDigitChar ((56320 + (c - 65536) % 1024) / 4096 % 16),
     hexDigitChar ((56320 + (c - 65536) % 1024) / 256 % 16),
     hexDigitChar ((56320 + (c - 65536) % 1024) / 16 % 16),
     hexDigitChar ((56320 + (c - 65536) % 1024) % 16)]

/-- Escaped body of a JSON string literal. -/
def escString (s : List Nat) : List Nat := concatMap escChar s

/-- A JSON string literal: quote, escaped body, quote. -/
def encJStr (s : List Nat) : List Nat := 34 :: (escString s ++ [34])

/-- The dict keys of the license payload (`machine_id`, `expires`,
`issued`, `days_valid`) as code-point lists. -/
def keyMachineId : List Nat := [109, 97, 99, 104, 105, 110, 101, 95, 105, 100]

/-- `expires`. -/
def keyExpires : List Nat := [101, 120, 112, 105, 114, 101, 115]

/-- `issued`. -/
def keyIssued : List Nat := [105, 115, 115, 117, 101, 100]

/-- `days_valid`. -/
def keyDaysValid : List Nat := [100, 97, 121, 115, 95, 118, 97, 108, 105, 100]

/-- The license claim set, as the script builds it (lines 90–95): the
timestamps are carried as strings (`datetime.isoformat()` output, modelled
by an injective decimal rendering of microseconds since the epoch). -/
structure Claims where
  machine_id : List Nat
  expires : List Nat
  issued : List Nat
  days_valid : Int
deriving DecidableEq

/-- `json.dumps(license_data)` with default separators, on the exact dict
shape of `make_license` (insertion order `machine_id`, `expires`,
`issued`, `days_valid`). -/
def jsonDumpsClaims (c : Claims) : List Nat :=
  [123] ++ encJStr keyMachineId ++ [58, 32] ++ encJStr c.machine_id ++ [44, 32]
        ++ encJStr keyExpires ++ [58, 32] ++ encJStr c.expires ++ [44, 32]
        ++ encJStr keyIssued ++ [58, 32] ++ encJStr c.issued ++ [44, 32]
        ++ encJStr keyDaysValid ++ [58, 32] ++ intRepr c.days_valid ++ [125]

/-- JSON object for a claim set, as `json.loads` returns it. -/
def claimsJVal (c : Claims) : JVal :=
  .obj [(keyMachineId, .str c.machine_id), (keyExpires, .str c.expires),
        (keyIssued, .str c.issued), (keyDaysValid, .num c.days_valid)]

/-- Whitespace characters skipped by the decoder. -/
def jsonWs (c : Nat) : Bool := c == 32 || c == 9 || c == 10 || c == 13

/-- Skip leading JSON whitespace. -/
def skipWs : List Nat → List Nat
  | c :: rest => if jsonWs c then skipWs rest else c :: rest
  | [] => []

/-- Is `c` a decimal digit character? -/
def isDigitChar (c : Nat) : Bool := 48 ≤ c && c ≤ 57

/-- Longest leading run of decimal digit characters, and the remainder. -/
def spanDigits : List Nat → List Nat × List Nat
  | c :: rest =>
    if isDigitChar c then
      let p := spanDigits rest
      (c :: p.1, p.2)
    else ([], c :: rest)
  | [] => ([], [])

mutual

/-- String-literal body scanner (`json/scanner.py`'s `py_scanstring`,
strict): the input starts just after the opening quote; returns the
decoded content and the remainder after the closing quote.  Raw control
characters are errors; `\\u` escapes recombine surrogate pairs.  The fuel
only bounds recursion depth: every decrement consumes at least one input
character, so any fuel exceeding the input length is enough. -/
def parseStringBody : Nat → List Nat → Option (List Nat × List Nat)
  | 0, _ => none
  | fuel + 1, s =>
    match s with
    | [] => none
    | c :: rest =>
      if c = 34 then some ([], rest)
      else if c = 92 then parseEsc fuel rest
      else if c < 32 then none
      else (parseStringBody fuel rest).map (fun p => (c :: p.1, p.2))
  termination_by fuel _ => (fuel, 1)

/-- Escape sequence handler: the input starts just after a backslash. -/
def parseEsc : Nat → List Nat → Option (List Nat × List Nat)
  | 0, _ => none
  | fuel + 1, s =>
    match s with
    | [] => none
    | e :: r2 => if e = 117 then parseEscU fuel r2 else parseEscShort fuel e r2
  termination_by fuel _ => (fuel, 0)

/-- `\\uXXXX` escape handler: four hex digits, with surrogate-pair
recombination when a high surrogate is followed by a `\\u` low
surrogate. -/
def parseEscU (fuel : Nat) (s : List Nat) : Option (List Nat × List Nat) :=
  match s with
  | a :: b :: c :: d :: r3 =>
    match hexVal a, hexVal b, hexVal c, hexVal d with
    | some x, some y, some z, some w =>
      let u := x * 4096 + y * 256 + z * 16 + w
      if 55296 ≤ u ∧ u ≤ 56319 then
        match r3 with
        | 92 :: 117 :: a2 :: b2 :: c2 :: d2 :: r4 =>
          match hexVal a2, hexVal b2, hexVal c2, hexVal d2 with
          | some x2, some y2, some z2, some w2 =>
            let u2 := x2 * 4096 + y2 * 256 + z2 * 16 + w2
            if 56320 ≤ u2 ∧ u2 ≤ 57343 then
              (parseStringBody fuel r4).map
                (fun p => ((65536 + (u - 55296) * 1024 + (u2 - 56320)) :: p.1, p.2))
            else
              (parseStringBody fuel (92 :: 117 :: a2 :: b2 :: c2 :: d2 :: r4)).map
                (fun p => (u :: p.1, p.2))
          | _, _, _, _ => none
        | _ => (parseStringBody fuel r3).map (fun p => (u :: p.1, p.2))
      else (parseStringBody fuel r3).map (fun p => (u :: p.1, p.2))
    | _, _, _, _ => none
  | _ => none
  termination_by (fuel, 2)

/-- Shorthand escape handler (`\\"`, `\\\\`, `\\/`, `\\b`, `\\f`,
`\\n`, `\\r`, `\\t`). -/
def parseEscShort (fuel : Nat) (e : Nat) (r2 : List Nat) :
    Option (List Nat × List Nat) :=
  if e = 34 then (parseStringBody fuel r2).map (fun p => (34 :: p.1, p.2))
  else if e = 92 then (parseStringBody fuel r2).map (fun p => (92 :: p.1, p.2))
  else if e = 47 then (parseStringBody fuel r2).map (fun p => (47 :: p.1, p.2))
  else if e = 98 then (parseStringBody fuel r2).map (fun p => (8 :: p.1, p.2))
  else if e = 102 then (parseStringBody fuel r2).map (fun p => (12 :: p.1, p.2))
  else if e = 110 then (parseStringBody fuel r2).map (fun p => (10 :: p.1, p.2))
  else if e = 114 then (parseStringBody fuel r2).map (fun p => (13 :: p.1, p.2))
  else if e = 116 then (parseStringBody fuel r2).map (fun p => (9 :: p.1, p.2))
  else none
  termination_by (fuel, 2)

end

/-- Finish a number after its integer digits: optional fraction and
exponent (each only consumed when syntactically complete, mirroring the
decoder's `NUMBER_RE`); a plain integer yields `JVal.num`. -/
def afterInt (neg : Bool) (ids : List Nat) (r : List Nat) : Option (JVal × List Nat) :=
  let intFinish : Option (JVal × List Nat) :=
    some (.num (if neg then -(ofDigits ids : Int) else (ofDigits ids : Int)), r)
  let mkLit (frac expo : List Nat) : List Nat :=
    (if neg then [45] else []) ++ ids ++ frac ++ expo
  let parseExp (r2 : List Nat) (frac : List Nat) : Option (JVal × List Nat) :=
    match r2 with
    | e :: r3 =>
      if e = 101 ∨ e = 69 then
        match r3 with
        | sgn :: r4 =>
          if sgn = 43 ∨ sgn = 45 then
            match spanDigits r4 with
            | ([], _) => if frac = [] then intFinish
                         else some (.fnum (mkLit frac []), r2)
            | (ds, r5) => some (.fnum (mkLit frac (e :: sgn :: ds)), r5)
          else
            match spanDigits r3 with
            | ([], _) => if frac = [] then intFinish
                         else some (.fnum (mkLit frac []), r2)
            | (ds, r5) => some (.fnum (mkLit frac (e :: ds)), r5)
        | [] => if frac = [] then intFinish else some (.fnum (mkLit frac []), r2)
      else if frac = [] then intFinish
      else some (.fnum (mkLit frac []), r2)
    | [] => if frac = [] then intFinish else some (.fnum (mkLit frac []), r2)
  match r with
  | [] => parseExp [] []
  | c :: r2 =>
    if c = 46 then
      match spanDigits r2 with
      | ([], _) => intFinish
      | (ds, r3) => parseExp r3 (46 :: ds)
    else parseExp (c :: r2) []

/-- The integer-part scanner of `NUMBER_RE` after an optional minus sign:
a single `0` or a nonzero digit followed by a digit run (no leading
zeros). -/
def parseNumberCore (neg : Bool) : List Nat → Option (JVal × List Nat)
  | [] => none
  | c :: r =>
    if c = 48 then afterInt neg [48] r
    else if 49 ≤ c ∧ c ≤ 57 then
      let p := spanDigits r
      afterInt neg (c :: p.1) p.2
    else none

/-- Number scanner (`NUMBER_RE`): optional minus, an integer part with no
leading zeros, optional fraction/exponent.  `none` when the head is not a
number (the decoder then reports "Expecting value"). -/
def parseNumber (s : List Nat) : Option (JVal × List Nat) :=
  match s with
  | [] => none
  | c :: r => if c = 45 then parseNumberCore true r else parseNumberCore false (c :: r)

/-- Does `l` start with the literal `pre`?  Returns the remainder. -/
def stripLit : List Nat → List Nat → Option (List Nat)
  | [], l => some l
  | p :: ps, c :: l => if c = p then stripLit ps l else none
  | _ :: _, [] => none

mutual

/-- Value scanner (`_scan_once`), fuel-indexed: the head of the input must
be the first character of a value (callers skip whitespace first). -/
def parseVal : Nat → List Nat → Option (JVal × List Nat)
  | 0, _ => none
  | fuel + 1, s =>
    match s with
    | [] => none
    | c :: rest =>
      if c = 34 then (parseStringBody fuel rest).map (fun p => (.str p.1, p.2))
      else if c = 123 then
        match skipWs rest with
        | [] => none
        | d :: r2 =>
          if d = 125 then some (.obj [], r2)
          else (parseMembers fuel (d :: r2)).map (fun p => (.obj p.1, p.2))
      else if c = 91 then
        match skipWs rest with
        | [] => none
        | d :: r2 =>
          if d = 93 then some (.arr [], r2)
          else (parseItems fuel (d :: r2)).map (fun p => (.arr p.1, p.2))
      else if c = 110 then (stripLit [117, 108, 108] rest).map (fun r => (.null, r))
      else if c = 116 then (stripLit [114, 117, 101] rest).map (fun r => (.bool true, r))
      else if c = 102 then (stripLit [97, 108, 115, 101] rest).map (fun r => (.bool false, r))
      else if c = 78 then (stripLit [97, 78] rest).map (fun r => (.fnum [78, 97, 78], r))
      else if c = 73 then
        (stripLit [110, 102, 105, 110, 105, 116, 121] rest).map
          (fun r => (.fnum [73, 110, 102], r))
      else
        match parseNumber s with
        | some p => some p
        | none =>
          if c = 45 then
            (stripLit [73, 110, 102, 105, 110, 105, 116, 121] rest).map
              (fun r => (.fnum [45, 73, 110, 102], r))
          else none

/-- Object member loop (`JSONObject`): the input must start at the opening
quote of a key; parses `"key": value` pairs separated by commas until the
closing brace. -/
def parseMembers : Nat → List Nat → Option (List (List Nat × JVal) × List Nat)
  | 0, _ => none
  | fuel + 1, s =>
    match s with
    | [] => none
    | q :: srest =>
      if q = 34 then
        match parseStringBody fuel srest with
        | none => none
        | some (key, r1) =>
          match skipWs r1 with
          | [] => none
          | col :: r2 =>
            if col = 58 then
              match parseVal fuel (skipWs r2) with
              | none => none
              | some (v, r3) =>
                match skipWs r3 with
                | [] => none
                | sep :: r4 =>
                  if sep = 44 then
                    (parseMembers fuel (skipWs r4)).map (fun p => ((key, v) :: p.1, p.2))
                  else if sep = 125 then some ([(key, v)], r4)
                  else none
            else none
      else none

/-- Array item loop (`JSONArray`): parses values separated by commas until
the closing bracket. -/
def parseItems : Nat → List Nat → Option (List JVal × List Nat)
  | 0, _ => none
  | fuel + 1, s =>
    match parseVal fuel s with
    | none => none
    | some (v, r1) =>
      match skipWs r1 with
      | [] => none
      | sep :: r2 =>
        if sep = 44 then (parseItems fuel (skipWs r2)).map (fun p => (v :: p.1, p.2))
        else if sep = 93 then some ([v], r2)
        else none

end

/-- `json.loads`: skip leading whitespace, scan one value, require only
whitespace after it.  `none` models `json.JSONDecodeError` (a
`ValueError`). -/
def jsonLoads (s : List Nat) : Option JVal :=
  let s1 := skipWs s
  match parseVal (s1.length + 1) s1 with
  | some (v, rest) => if skipWs rest = [] then some v else none
  | none => none

/-- Python dict lookup on the pair list produced by the object scanner:
with duplicate keys, `dict(pairs)` keeps the last value. -/
def lookupLast (kvs : List (List Nat × JVal)) (k : List Nat) : Option JVal :=
  match kvs with
  | [] => none
  | (k', v) :: rest =>
    match lookupLast rest k with
    | some r => some r
    | none => if k' = k then some v else none

/-! ## Symbolic model of the `ecdsa` library

The script uses `SigningKey`/`VerifyingKey` on NIST384p.  A "key" is the
numeric value of the raw 96-byte `x ‖ y` encoding of the public point
(`to_string`), so `sk < 2^768`; the scalar/point distinction is conflated
(no elliptic-curve scalar multiplication is carried out), but the point
validity check of `VerifyingKey.from_string` is the real one: both
coordinates below the field prime and the NIST-384 curve equation
`y² ≡ x³ − 3x + b (mod p)`.  `SigningKey.sign` draws a fresh nonce per
call (injected as an explicit `Nat` argument, as the ambient clock is) and
`sigencode_string` returns the raw 96-byte `r ‖ s` pair — bytes that range
over all values, so a signature *can* contain `b'||'` or start with
`b'|'`.  The signing equation `s = (key + H(msg) + r) mod n` is an
abstract stand-in for ECDSA (`s = k⁻¹(H + r·d) mod n`): it keeps nonce
dependence, the raw fixed-width encoding, and message/key binding, but —
as with any computable embedding — not unforgeability. -/

/-- The NIST-384 field prime `p = 2^384 - 2^128 - 2^96 + 2^32 - 1`. -/
def nistP : Nat :=
  39402006196394479212279040100143613805079739270465446667948293404245721771496870329047266088258938001861606973112319

/-- The NIST-384 curve constant `b` (`y^2 = x^3 - 3x + b`). -/
def nistB : Nat :=
  27580193559959705877849011840389048093056905856361568521428707301988689241309860865136260764883745107765439761230575

/-- The NIST-384 group order `n`. -/
def nistOrder : Nat :=
  39402006196394479212279040100143613805079739270465446667946905279627659399113263569398956308152294913554433653942643

/-- `VerifyingKey.from_string`'s point validation on the 96-byte `x ‖ y`
encoding: coordinates in the field and the curve equation
`y² ≡ x³ − 3x + b (mod p)`. -/
def onCurve (kb : List Nat) : Bool :=
  let x := beToNat (kb.take 48)
  let y := beToNat (kb.drop 48)
  decide (x < nistP) && decide (y < nistP)
    && ((y * y) % nistP == (x * x * x + (nistP - 3) * x + nistB) % nistP)

/-- `get_public_hex` (lines 25–28): `vk.to_string().hex()`, the 192-char
lower-case hex of the 96-byte public point. -/
def get_public_hex (sk : Nat) : List Nat := bytesHex (natToBE 96 sk)

/-- The hash-and-truncate of the signed message, `H(msg) mod n` (real
ECDSA truncates SHA-1 by default here; the raw big-endian value stands in
for the digest). -/
def sigHash (msg : List Nat) : Nat := beToNat msg % nistOrder

/-- `SigningKey.sign(msg)` with nonce `k`: the raw 96-byte
`sigencode_string` output `r ‖ s`, two 48-byte big-endian halves.  `r` is
the nonce's group element and `s` the abstract signing equation; both
halves are arbitrary byte strings as `k` varies, so a signature can
contain `b'||'` (`[124, 124]`) or start with `b'|'`. -/
def skSign (sk : Nat) (msg : List Nat) (k : Nat) : List Nat :=
  natToBE 48 (k % nistOrder)
    ++ natToBE 48 ((sk + sigHash msg + k % nistOrder) % nistOrder)

/-- `VerifyingKey.verify(sig, msg)`: the signature must be exactly 96
bytes and its `s` half must satisfy the (abstract) verification equation
for the key's value.  A `false` is raised as `BadSignatureError` (the
real library also wraps malformed/short signatures into that error). -/
def vkVerify (vk : Nat) (sig msg : List Nat) : Bool :=
  (sig.length == 96)
    && (beToNat (sig.drop 48) == (vk + sigHash msg + beToNat (sig.take 48)) % nistOrder)

/-- A signature that splits cleanly out of the `b'||'` container: it
contains no `b'||'` and does not start with `b'|'`.  Roughly 99.5% of
random 96-byte signatures satisfy this; `make_license` never checks it. -/
def cleanSig (s : List Nat) : Prop := noDD s = true ∧ s.head? ≠ some 124

instance (s : List Nat) : Decidable (cleanSig s) := by
  unfold cleanSig; infer_instance

/-! ## The script's core functions -/

/-- Microseconds per day: `datetime.timedelta(days=1)`.  Timestamps are
modelled as integer microseconds; `datetime.isoformat()` is modelled by
the injective rendering `intRepr`. -/
def usDay : Int := 86400000000

/-- The license dict built by `make_license` (lines 89–95): `expires` from
the *first* `datetime.datetime.now()` sample plus the validity window,
`issued` from the *second* sample. -/
def licenseData (machine_id : List Nat) (days : Int) (t1 t2 : Int) : Claims :=
  { machine_id := machine_id
    expires := intRepr (t1 + days * usDay)
    issued := intRepr t2
    days_valid := days }

/-- The canonical payload bytes of `make_license`:
`json.dumps(license_data).encode('utf-8')` (lines 98–99). -/
def licensePayload (machine_id : List Nat) (days : Int) (t1 t2 : Int) : List Nat :=
  utf8EncodeStr (jsonDumpsClaims (licenseData machine_id days t1 t2))

/-- `make_license(machine_id, days)` (lines 75–104), with the private key
given as the scalar `sk` (the `private_key.pem` file read is I/O glue; a
missing key file returns `(None, None)` and is modelled out) and the
ambient clock injected as `clock` — the call samples `now()` twice, first
for `expires`, then for `issued`.  Returns `(license_key, public_hex)`. -/
def make_license (sk : Nat) (machine_id : List Nat) (days : Int)
    (clock : Nat → Int) (nonce : Nat) : List Nat × List Nat :=
  let public_hex := get_public_hex sk
  let data_bytes := licensePayload machine_id days (clock 0) (clock 1)
  let signature := skSign sk data_bytes nonce
  let combined := data_bytes ++ 124 :: 124 :: signature
  (b64encode combined, public_hex)

/-- Exceptions that escape `validate_license` uncaught: its `except`
clause names only `BadSignatureError`, `ValueError` and
`json.JSONDecodeError`.  `MalformedPointError` (raised by
`VerifyingKey.from_string` for a wrong-length or off-curve encoding) is an
`AssertionError` subclass in the `ecdsa` library, and the success path's
`license_data['machine_id']` / `license_data['expires']` subscripts can
raise `KeyError` (dict without the key) or `TypeError` (non-dict). -/
inductive PyExc where
  | malformedPoint
  | keyError
  | typeError
deriving DecidableEq

/-- The value returned by `validate_license` when no exception escapes:
`(True, license_data)` or `(False, str(e))`.  The message payloads are
fixed stand-ins for the Python exception texts. -/
inductive VOut where
  | success (d : JVal)
  | failure (msg : List Nat)

/-- Stand-in for `str(e)` of the caught `ValueError` from `bytes.fromhex`. -/
def msgNonHex : List Nat := [104, 101, 120]

/-- Stand-in for the caught base64/`UnicodeEncodeError` message. -/
def msgB64 : List Nat := [98, 54, 52]

/-- Stand-in for the caught unpack-`ValueError` message (no delimiter). -/
def msgUnpack : List Nat := [115, 112, 108, 105, 116]

/-- Stand-in for the caught `UnicodeDecodeError` message. -/
def msgUnicode : List Nat := [117, 116, 102, 56]

/-- Stand-in for the caught `BadSignatureError` message. -/
def msgBadSig : List Nat := [98, 97, 100, 115, 105, 103]

/-- Stand-in for the caught `json.JSONDecodeError` message. -/
def msgJson : List Nat := [106, 115, 111, 110]

/-- Step 6 of `validate_license`: `json.loads(data)` and the success
path's dict subscripts (`license_data['machine_id']`,
`license_data['expires']`), which raise uncaught `KeyError`/`TypeError`
when the signed payload is not an object with those keys. -/
def validateJson (data : List Nat) : Except PyExc VOut :=
  match jsonLoads data with
  | none => .ok (.failure msgJson)
  | some license_data =>
    match license_data with
    | .obj kvs =>
      match lookupLast kvs keyMachineId with
      | none => .error .keyError
      | some _ =>
        match lookupLast kvs keyExpires with
        | none => .error .keyError
        | some _ => .ok (.success license_data)
    | _ => .error .typeError

/-- Steps 4–5 of `validate_license`: `data = data_b.decode()` then
`vk.verify(sign, data_b)` (in source order: the decode precedes the
signature check). -/
def validateVerify (vk : Nat) (data_b sign : List Nat) : Except PyExc VOut :=
  match utf8Decode data_b with
  | none => .ok (.failure msgUnicode)
  | some data =>
    if vkVerify vk sign data_b then validateJson data
    else .ok (.failure msgBadSig)

/-- Step 3 of `validate_license`: `data_b, sign = decoded.rsplit(b'||', 1)`
with tuple unpacking. -/
def validateSplit (vk : Nat) (decoded : List Nat) : Except PyExc VOut :=
  match rsplit2 decoded with
  | none => .ok (.failure msgUnpack)
  | some (data_b, sign) => validateVerify vk data_b sign

/-- Step 2 of `validate_license`: `decoded = base64.b64decode(license_key)`. -/
def validateB64 (vk : Nat) (license_key : List Nat) : Except PyExc VOut :=
  match b64decodeStr license_key with
  | none => .ok (.failure msgB64)
  | some decoded => validateSplit vk decoded

/-- `validate_license(license_key, public_hex)` (lines 54–73), modelling
the `try`/`except` as routing: steps in source order —
`VerifyingKey.from_string(bytes.fromhex(public_hex))`,
`base64.b64decode`, `rsplit(b'||', 1)` with tuple unpacking,
`data_b.decode()`, `vk.verify(sign, data_b)`, `json.loads(data)`, then
the success `print`s subscript `license_data['machine_id']` and
`['expires']`.  Caught exceptions yield `.ok (.failure _)`; exceptions
outside the `except` clause yield `.error _`. -/
def validate_license (license_key public_hex : List Nat) : Except PyExc VOut :=
  match bytesFromhex public_hex with
  | none => .ok (.failure msgNonHex)
  | some kb =>
    if kb.length = 96 then
      if onCurve kb then validateB64 (beToNat kb) license_key
      else .error .malformedPoint
    else .error .malformedPoint

/-! ## Container codec (spec names for lines 101–102 / 60–61) -/

/-- `encode_container`: join payload and signature with `b'||'`, base64
the whole (line 101–102). -/
def encode_container (payload signature : List Nat) : List Nat :=
  b64encode (payload ++ 124 :: 124 :: signature)

/-- `decode_container`: base64-decode, split on the last `b'||'`
(lines 60–61). -/
def decode_container (s : List Nat) : Option (List Nat × List Nat) :=
  (b64decodeStr s).bind rsplit2

/-! ## Canonical claims codec (spec names for lines 98–99 / 62–64) -/

/-- `canonicalize`: `json.dumps(claims).encode('utf-8')` (lines 98–99). -/
def canonicalize (c : Claims) : List Nat := utf8EncodeStr (jsonDumpsClaims c)

/-- Read a parsed JSON value back as a `Claims` record: it must be an
object carrying the four fields with their expected types. -/
def toClaims (v : JVal) : Option Claims :=
  match v with
  | .obj kvs =>
    match lookupLast kvs keyMachineId, lookupLast kvs keyExpires,
        lookupLast kvs keyIssued, lookupLast kvs keyDaysValid with
    | some (.str m), some (.str e), some (.str i), some (.num d) =>
      some { machine_id := m, expires := e, issued := i, days_valid := d }
    | _, _, _, _ => none
  | _ => none

/-- `decanonicalize`: `bytes.decode()` then `json.loads` (lines 62–64),
read back as a `Claims` record. -/
def decanonicalize (bs : List Nat) : Option Claims :=
  ((utf8Decode bs).bind jsonLoads).bind toClaims

/-! ## Batch issuing (lines 171–214) -/

/-- Python dict insertion: update in place if the key exists, else append. -/
def dictInsert (d : List (List Nat × List Nat)) (k v : List Nat) :
    List (List Nat × List Nat) :=
  match d with
  | [] => [(k, v)]
  | (k', v') :: rest => if k' = k then (k', v) :: rest else (k', v') :: dictInsert rest k v

/-- The issuing loop of `batch_make_licenses` (lines 202–207): each id
gets its own `make_license` call (hence two fresh clock samples, indexed
`2*i` and `2*i+1`); a truthy license key is recorded in the dict.  The
surrounding prompt/file I/O is glue and not modelled. -/
def batchGo (sk : Nat) (days : Int) (clock : Nat → Int) (rng : Nat → Nat) :
    List (List Nat) → Nat → List (List Nat × List Nat) → List (List Nat × List Nat)
  | [], _, licenses => licenses
  | machine_id :: rest, i, licenses =>
    let license_key :=
      (make_license sk machine_id days (fun j => clock (2 * i + j)) (rng i)).1
    let licenses' := if license_key ≠ [] then dictInsert licenses machine_id license_key
                     else licenses
    batchGo sk days clock rng rest (i + 1) licenses'

/-- `batch_make_licenses` core: the resulting machine-id → license dict.
Each `make_license` call samples the clock twice and draws one fresh
signing nonce (`rng i` for the `i`-th id). -/
def batch_make_licenses (sk : Nat) (machine_ids : List (List Nat)) (days : Int)
    (clock : Nat → Int) (rng : Nat → Nat) : List (List Nat × List Nat) :=
  batchGo sk days clock rng machine_ids 0 []

/-! ## Validity of modelled Python strings -/

/-- A modelled Python string is a list of Unicode scalar values: code
points below `0x110000` that are not UTF-16 surrogates. -/
def validStr (s : List Nat) : Prop :=
  ∀ c ∈ s, c < 1114112 ∧ ¬(55296 ≤ c ∧ c ≤ 57343)

instance (s : List Nat) : Decidable (validStr s) := by
  unfold validStr; infer_instance


/-! ## Lemmas: hexadecimal and big-endian encodings -/

theorem pyWs_hexDigitChar : ∀ d, d < 16 → pyWs (hexDigitChar d) = false := by decide

theorem hexVal_hexDigitChar : ∀ d, d < 16 → hexVal (hexDigitChar d) = some d := by
  decide

theorem mem_bytesHex_range {bs : List Nat} (h : isBytes bs) :
    ∀ x ∈ bytesHex bs, (48 ≤ x ∧ x ≤ 57) ∨ (97 ≤ x ∧ x ≤ 102) := by
  induction bs with
  | nil => intro x hx; simp [bytesHex, concatMap] at hx
  | cons b bs ih =>
    intro x hx
    have hb : b < 256 := h b (by simp)
    have hbs : isBytes bs := fun y hy => h y (by simp [hy])
    have hx' : x = hexDigitChar (b / 16) ∨ x = hexDigitChar (b % 16) ∨ x ∈ bytesHex bs := by
      simpa [bytesHex, concatMap] using hx
    rcases hx' with hx' | hx' | hx'
    · subst hx'; unfold hexDigitChar; split <;> omega
    · subst hx'; unfold hexDigitChar; split <;> omega
    · exact ih hbs x hx'

theorem bytesFromhex_bytesHex {bs : List Nat} (h : isBytes bs) :
    bytesFromhex (bytesHex bs) = some bs := by
  induction bs with
  | nil => rfl
  | cons b bs ih =>
    have hb : b < 256 := h b (by simp)
    have hbs : isBytes bs := fun y hy => h y (by simp [hy])
    have e1 : hexVal (hexDigitChar (b / 16)) = some (b / 16) :=
      hexVal_hexDigitChar _ (by omega)
    have e2 : hexVal (hexDigitChar (b % 16)) = some (b % 16) :=
      hexVal_hexDigitChar _ (by omega)
    have e3 : b / 16 * 16 + b % 16 = b := by omega
    have hw := pyWs_hexDigitChar (b / 16) (by omega)
    show bytesFromhex (hexDigitChar (b / 16) :: hexDigitChar (b % 16) :: bytesHex bs)
        = some (b :: bs)
    rw [bytesFromhex]
    simp only [hw, Bool.false_eq_true, if_false]
    rw [e1, e2, ih hbs]
    simp [e3]

theorem natToBE_length : ∀ k n, (natToBE k n).length = k := by
  intro k
  induction k with
  | zero => intro n; rfl
  | succ k ih => intro n; simp [natToBE, ih]

theorem natToBE_isBytes : ∀ k n, isBytes (natToBE k n) := by
  intro k
  induction k with
  | zero => intro n x hx; simp [natToBE] at hx
  | succ k ih =>
    intro n x hx
    simp only [natToBE, List.mem_append, List.mem_singleton] at hx
    rcases hx with hx | hx
    · exact ih _ x hx
    · subst hx; omega

theorem beToNat_natToBE : ∀ k n, n < 256 ^ k → beToNat (natToBE k n) = n := by
  intro k
  induction k with
  | zero => intro n h; simp [pow_zero] at h; simp [natToBE, beToNat, h]
  | succ k ih =>
    intro n h
    have hdiv : n / 256 < 256 ^ k := by
      rw [Nat.div_lt_iff_lt_mul (by omega)]
      calc n < 256 ^ (k + 1) := h
        _ = 256 ^ k * 256 := by ring
    show beToNat (natToBE k (n / 256) ++ [n % 256]) = n
    unfold beToNat
    rw [List.foldl_append]
    have hres := ih (n / 256) hdiv
    unfold beToNat at hres
    rw [hres]
    show n / 256 * 256 + n % 256 = n
    omega

/-! ## Lemmas: base64 round trip -/

theorem b64Val_b64Char : ∀ n, n < 64 → b64Val (b64Char n) = some n := by decide

theorem b64Char_ne_61 : ∀ n, n < 64 → b64Char n ≠ 61 := by decide

theorem b64Char_lt_128 : ∀ n, n < 64 → b64Char n < 128 := by decide

theorem b64decodeCore_b64encode :
    ∀ l : List Nat, isBytes l → b64decodeCore (b64encode l) = some l := by
  have main : ∀ n l, List.length l ≤ n → isBytes l →
      b64decodeCore (b64encode l) = some l := by
    intro n
    induction n with
    | zero =>
      intro l hl _
      have : l = [] := List.length_eq_zero.mp (Nat.le_zero.mp hl)
      subst this; rfl
    | succ n ih =>
      intro l hl hb
      match l with
      | [] => rfl
      | [a] =>
        have ha : a < 256 := hb a (by simp)
        have v1 := b64Val_b64Char (a / 4) (by omega)
        have v2 := b64Val_b64Char (a % 4 * 16) (by omega)
        have e : a / 4 * 4 + a % 4 * 16 / 16 = a := by omega
        show b64decodeCore [b64Char (a / 4), b64Char (a % 4 * 16), 61, 61] = some [a]
        simp [b64decodeCore, v1, v2, e]
        omega
      | [a, b] =>
        have ha : a < 256 := hb a (by simp)
        have hbb : b < 256 := hb b (by simp)
        have v1 := b64Val_b64Char (a / 4) (by omega)
        have v2 := b64Val_b64Char (a % 4 * 16 + b / 16) (by omega)
        have v3 := b64Val_b64Char (b % 16 * 4) (by omega)
        have ne3 := b64Char_ne_61 (b % 16 * 4) (by omega)
        have e1 : a / 4 * 4 + (a % 4 * 16 + b / 16) / 16 = a := by omega
        have e2 : (a % 4 * 16 + b / 16) % 16 * 16 + b % 16 * 4 / 4 = b := by omega
        show b64decodeCore
            [b64Char (a / 4), b64Char (a % 4 * 16 + b / 16), b64Char (b % 16 * 4), 61]
            = some [a, b]
        simp [b64decodeCore, v1, v2, v3, ne3, e1, e2]
        omega
      | a :: b :: c :: rest =>
        have ha : a < 256 := hb a (by simp)
        have hbb : b < 256 := hb b (by simp)
        have hc : c < 256 := hb c (by simp)
        have hrest : isBytes rest := fun y hy => hb y (by simp [hy])
        have hlen : rest.length ≤ n := by
          simp only [List.length_cons] at hl; omega
        have v1 := b64Val_b64Char (a / 4) (by omega)
        have v2 := b64Val_b64Char (a % 4 * 16 + b / 16) (by omega)
        have v3 := b64Val_b64Char (b % 16 * 4 + c / 64) (by omega)
        have v4 := b64Val_b64Char (c % 64) (by omega)
        have ne3 := b64Char_ne_61 (b % 16 * 4 + c / 64) (by omega)
        have ne4 := b64Char_ne_61 (c % 64) (by omega)
        have hih := ih rest hlen hrest
        have e1 : a / 4 * 4 + (a % 4 * 16 + b / 16) / 16 = a := by omega
        have e2 : (a % 4 * 16 + b / 16) % 16 * 16 + (b % 16 * 4 + c / 64) / 4 = b := by
          omega
        have e3 : (b % 16 * 4 + c / 64) % 4 * 64 + c % 64 = c := by omega
        show b64decodeCore
            (b64Char (a / 4) :: b64Char (a % 4 * 16 + b / 16) ::
             b64Char (b % 16 * 4 + c / 64) :: b64Char (c % 64) :: b64encode rest)
            = some (a :: b :: c :: rest)
        simp [b64decodeCore, v1, v2, v3, v4, ne3, ne4, hih, e1, e2, e3]
  intro l
  exact main l.length l (Nat.le_refl _)

theorem mem_b64encode {l : List Nat} (hb : isBytes l) :
    ∀ x ∈ b64encode l, x < 128 ∧ ((b64Val x).isSome || x == 61) = true := by
  have main : ∀ n l, List.length l ≤ n → isBytes l →
      ∀ x ∈ b64encode l, x < 128 ∧ ((b64Val x).isSome || x == 61) = true := by
    intro n
    induction n with
    | zero =>
      intro l hl _ x hx
      have : l = [] := List.length_eq_zero.mp (Nat.le_zero.mp hl)
      subst this; simp [b64encode] at hx
    | succ n ih =>
      intro l hl hb x hx
      have memChar : ∀ m, m < 64 → x = b64Char m →
          x < 128 ∧ ((b64Val x).isSome || x == 61) = true := by
        intro m hm he
        subst he
        refine ⟨b64Char_lt_128 _ hm, ?_⟩
        rw [b64Val_b64Char _ hm]
        simp
      have mem61 : x = 61 → x < 128 ∧ ((b64Val x).isSome || x == 61) = true := by
        intro he; subst he; simp
      match l with
      | [] => simp [b64encode] at hx
      | [a] =>
        have ha : a < 256 := hb a (by simp)
        have hx' : x = b64Char (a / 4) ∨ x = b64Char (a % 4 * 16) ∨ x = 61 := by
          simpa [b64encode] using hx
        rcases hx' with h | h | h
        · exact memChar _ (by omega) h
        · exact memChar _ (by omega) h
        · exact mem61 h
      | [a, b] =>
        have ha : a < 256 := hb a (by simp)
        have hbb : b < 256 := hb b (by simp)
        have hx' : x = b64Char (a / 4) ∨ x = b64Char (a % 4 * 16 + b / 16) ∨
            x = b64Char (b % 16 * 4) ∨ x = 61 := by
          simpa [b64encode] using hx
        rcases hx' with h | h | h | h
        · exact memChar _ (by omega) h
        · exact memChar _ (by omega) h
        · exact memChar _ (by omega) h
        · exact mem61 h
      | a :: b :: c :: rest =>
        have ha : a < 256 := hb a (by simp)
        have hbb : b < 256 := hb b (by simp)
        have hc : c < 256 := hb c (by simp)
        have hrest : isBytes rest := fun y hy => hb y (by simp [hy])
        have hlen : rest.length ≤ n := by
          simp only [List.length_cons] at hl; omega
        have hx' : x = b64Char (a / 4) ∨ x = b64Char (a % 4 * 16 + b / 16) ∨
            x = b64Char (b % 16 * 4 + c / 64) ∨ x = b64Char (c % 64) ∨
            x ∈ b64encode rest := by
          simpa [b64encode] using hx
        rcases hx' with h | h | h | h | h
        · exact memChar _ (by omega) h
        · exact memChar _ (by omega) h
        · exact memChar _ (by omega) h
        · exact memChar _ (by omega) h
        · exact ih rest hlen hrest x h
  exact main l.length l (Nat.le_refl _) hb

theorem b64decodeStr_b64encode {l : List Nat} (hb : isBytes l) :
    b64decodeStr (b64encode l) = some l := by
  unfold b64decodeStr
  have hall : (b64encode l).all (· < 128) = true := by
    rw [List.all_eq_true]
    intro x hx
    simpa using (mem_b64encode hb x hx).1
  have hfilter :
      (b64encode l).filter (fun c => (b64Val c).isSome || c == 61) = b64encode l := by
    rw [List.filter_eq_self]
    intro x hx
    exact (mem_b64encode hb x hx).2
  rw [if_pos hall, hfilter]
  exact b64decodeCore_b64encode l hb

theorem b64encode_ne_nil {a : Nat} {l : List Nat} : b64encode (a :: l) ≠ [] := by
  match l with
  | [] => simp [b64encode]
  | [b] => simp [b64encode]
  | b :: c :: rest => simp [b64encode]

/-! ## Lemmas: `rsplit2` -/

theorem noDD_tail {a : Nat} {rest : List Nat} (h : noDD (a :: rest) = true) :
    noDD rest = true := by
  cases rest with
  | nil => rfl
  | cons b t =>
    by_cases hc : a = 124 ∧ b = 124
    · rw [noDD, if_pos hc] at h
      exact absurd h (by simp)
    · rwa [noDD, if_neg hc] at h

theorem rsplit2_none_of_noDD : ∀ {l : List Nat}, noDD l = true → rsplit2 l = none := by
  intro l
  induction l with
  | nil => intro _; rfl
  | cons a rest ih =>
    intro h
    have hrest := ih (noDD_tail h)
    rw [rsplit2, hrest]
    rw [if_neg]
    intro ⟨ha, hb⟩
    cases rest with
    | nil => simp at hb
    | cons b t =>
      simp only [List.head?_cons, Option.some.injEq] at hb
      rw [noDD, if_pos ⟨ha, hb⟩] at h
      exact absurd h (by simp)

theorem rsplit2_append {s : List Nat} (hdd : noDD s = true)
    (hhd : s.head? ≠ some 124) :
    ∀ p, rsplit2 (p ++ 124 :: 124 :: s) = some (p, s) := by
  intro p
  induction p with
  | nil =>
    have h1 : rsplit2 (124 :: s) = none := by
      rw [rsplit2, rsplit2_none_of_noDD hdd]
      rw [if_neg]
      intro ⟨_, hb⟩
      exact hhd hb
    show rsplit2 (124 :: 124 :: s) = some ([], s)
    rw [rsplit2, h1]
    simp
  | cons a p ih =>
    show rsplit2 (a :: (p ++ 124 :: 124 :: s)) = some (a :: p, s)
    rw [rsplit2, ih]

theorem noDD_of_ne_124 {s : List Nat} (h : ∀ x ∈ s, x ≠ 124) : noDD s = true := by
  induction s with
  | nil => rfl
  | cons a rest ih =>
    have ha : a ≠ 124 := h a (by simp)
    have hrest := ih (fun y hy => h y (by simp [hy]))
    cases rest with
    | nil => rfl
    | cons b t =>
      rw [noDD, if_neg (fun hc => ha hc.1)]
      exact hrest

theorem head_ne_124 {s : List Nat} (h : ∀ x ∈ s, x ≠ 124) : s.head? ≠ some 124 := by
  cases s with
  | nil => simp
  | cons a t =>
    simp only [List.head?_cons, ne_eq, Option.some.injEq]
    exact h a (by simp)

/-! ## Lemmas: UTF-8 on ASCII -/

theorem utf8EncodeStr_ascii {s : List Nat} (h : ∀ c ∈ s, c < 128) :
    utf8EncodeStr s = s := by
  induction s with
  | nil => rfl
  | cons c rest ih =>
    have hc : c < 128 := h c (by simp)
    show utf8EncodeChar c ++ utf8EncodeStr rest = c :: rest
    rw [ih (fun y hy => h y (by simp [hy]))]
    unfold utf8EncodeChar
    rw [if_pos hc]
    rfl

theorem utf8DecodeF_ascii :
    ∀ fuel s, List.length s < fuel → (∀ c ∈ s, c < 128) →
      utf8DecodeF fuel s = some s := by
  intro fuel
  induction fuel with
  | zero => intro s h _; omega
  | succ fuel ih =>
    intro s hlen h
    cases s with
    | nil => rfl
    | cons c rest =>
      have hc : c < 128 := h c (by simp)
      have hrest : List.length rest < fuel := by
        simp only [List.length_cons] at hlen; omega
      rw [utf8DecodeF, if_pos hc, ih rest hrest (fun y hy => h y (by simp [hy]))]
      rfl

theorem utf8Decode_ascii {s : List Nat} (h : ∀ c ∈ s, c < 128) :
    utf8Decode s = some s :=
  utf8DecodeF_ascii (s.length + 1) s (by omega) h

/-! ## Lemmas: decimal digits -/

theorem natDigitsF_congr : ∀ f g n, n < f → n < g → natDigitsF f n = natDigitsF g n := by
  intro f
  induction f with
  | zero => intro g n hf; omega
  | succ f ih =>
    intro g n hf hg
    match g, hg with
    | g + 1, hg =>
      rw [natDigitsF, natDigitsF]
      by_cases h10 : n < 10
      · rw [if_pos h10, if_pos h10]
      · rw [if_neg h10, if_neg h10]
        have hlt : n / 10 < n := Nat.div_lt_self (by omega) (by omega)
        rw [ih g (n / 10) (by omega) (by omega)]

theorem natDigits_eq (n : Nat) :
    natDigits n = if n < 10 then [48 + n] else natDigits (n / 10) ++ [48 + n % 10] := by
  show natDigitsF (n + 1) n = _
  rw [natDigitsF]
  by_cases h10 : n < 10
  · rw [if_pos h10, if_pos h10]
  · rw [if_neg h10, if_neg h10]
    have hlt : n / 10 < n := Nat.div_lt_self (by omega) (by omega)
    rw [natDigitsF_congr n (n / 10 + 1) (n / 10) (by omega) (by omega)]
    rfl

theorem mem_natDigits : ∀ n, ∀ c ∈ natDigits n, 48 ≤ c ∧ c ≤ 57 := by
  intro n
  induction n using Nat.strong_induction_on with
  | _ n ih =>
    intro c hc
    rw [natDigits_eq] at hc
    split at hc
    · next h =>
      simp only [List.mem_singleton] at hc
      omega
    · next h =>
      simp only [List.mem_append, List.mem_singleton] at hc
      rcases hc with hc | hc
      · exact ih (n / 10) (Nat.div_lt_self (by omega) (by omega)) c hc
      · omega

theorem natDigits_ne_nil : ∀ n, natDigits n ≠ [] := by
  intro n
  rw [natDigits_eq]
  split
  · simp
  · simp

theorem ofDigits_natDigits : ∀ n, ofDigits (natDigits n) = n := by
  intro n
  induction n using Nat.strong_induction_on with
  | _ n ih =>
    rw [natDigits_eq]
    split
    · next h =>
      show List.foldl (fun a c => a * 10 + (c - 48)) 0 [48 + n] = n
      simp
    · next h =>
      show ofDigits (natDigits (n / 10) ++ [48 + n % 10]) = n
      unfold ofDigits
      rw [List.foldl_append]
      have hres := ih (n / 10) (Nat.div_lt_self (by omega) (by omega))
      unfold ofDigits at hres
      rw [hres]
      show n / 10 * 10 + (48 + n % 10 - 48) = n
      omega

theorem natDigits_head_pos :
    ∀ n, 1 ≤ n → ∃ h t, natDigits n = h :: t ∧ 49 ≤ h ∧ h ≤ 57 := by
  intro n
  induction n using Nat.strong_induction_on with
  | _ n ih =>
    intro hn
    rw [natDigits_eq]
    split
    · next h => exact ⟨48 + n, [], rfl, by omega, by omega⟩
    · next h =>
      obtain ⟨hd, tl, he, h1, h2⟩ :=
        ih (n / 10) (Nat.div_lt_self (by omega) (by omega)) (by omega)
      exact ⟨hd, tl ++ [48 + n % 10], by rw [he]; rfl, h1, h2⟩

/-! ## Lemmas: JSON string escaping round trip through the scanner -/

theorem parseEscU_print (f v : Nat) (rest : List Nat) (hv : v < 65536)
    (hns : ¬(55296 ≤ v ∧ v ≤ 56319)) :
    parseEscU f (hexDigitChar (v / 4096 % 16) :: hexDigitChar (v / 256 % 16) ::
        hexDigitChar (v / 16 % 16) :: hexDigitChar (v % 16) :: rest)
      = (parseStringBody f rest).map (fun p => (v :: p.1, p.2)) := by
  have h1 := hexVal_hexDigitChar (v / 4096 % 16) (by omega)
  have h2 := hexVal_hexDigitChar (v / 256 % 16) (by omega)
  have h3 := hexVal_hexDigitChar (v / 16 % 16) (by omega)
  have h4 := hexVal_hexDigitChar (v % 16) (by omega)
  have he : v / 4096 % 16 * 4096 + v / 256 % 16 * 256 + v / 16 % 16 * 16 + v % 16 = v := by
    omega
  rw [parseEscU]
  simp only [h1, h2, h3, h4, he]
  rw [if_neg hns]

theorem parseEscU_pair_gen (f hi lo : Nat) (rest : List Nat)
    (hhi : 55296 ≤ hi ∧ hi ≤ 56319) (hlo : 56320 ≤ lo ∧ lo ≤ 57343) :
    parseEscU f
      (hexDigitChar (hi / 4096 % 16) :: hexDigitChar (hi / 256 % 16) ::
       hexDigitChar (hi / 16 % 16) :: hexDigitChar (hi % 16) ::
       92 :: 117 :: hexDigitChar (lo / 4096 % 16) :: hexDigitChar (lo / 256 % 16) ::
       hexDigitChar (lo / 16 % 16) :: hexDigitChar (lo % 16) :: rest)
      = (parseStringBody f rest).map
          (fun p => ((65536 + (hi - 55296) * 1024 + (lo - 56320)) :: p.1, p.2)) := by
  have u1 := hexVal_hexDigitChar (hi / 4096 % 16) (by omega)
  have u2 := hexVal_hexDigitChar (hi / 256 % 16) (by omega)
  have u3 := hexVal_hexDigitChar (hi / 16 % 16) (by omega)
  have u4 := hexVal_hexDigitChar (hi % 16) (by omega)
  have v1 := hexVal_hexDigitChar (lo / 4096 % 16) (by omega)
  have v2 := hexVal_hexDigitChar (lo / 256 % 16) (by omega)
  have v3 := hexVal_hexDigitChar (lo / 16 % 16) (by omega)
  have v4 := hexVal_hexDigitChar (lo % 16) (by omega)
  have ehi : hi / 4096 % 16 * 4096 + hi / 256 % 16 * 256 + hi / 16 % 16 * 16 + hi % 16
      = hi := by omega
  have elo : lo / 4096 % 16 * 4096 + lo / 256 % 16 * 256 + lo / 16 % 16 * 16 + lo % 16
      = lo := by omega
  rw [parseEscU]
  simp only [u1, u2, u3, u4, ehi]
  rw [if_pos hhi]
  simp only [v1, v2, v3, v4, elo]
  rw [if_pos hlo]

theorem parseStringBody_print :
    ∀ s : List Nat, validStr s → ∀ fuel tail,
      (escString s ++ 34 :: tail).length < fuel →
      parseStringBody fuel (escString s ++ 34 :: tail) = some (s, tail) := by
  intro s
  induction s with
  | nil =>
    intro _ fuel tail hlen
    have he : escString ([] : List Nat) = [] := rfl
    rw [he] at hlen ⊢
    simp only [List.nil_append, List.length_cons] at hlen ⊢
    obtain ⟨f, rfl⟩ : ∃ f, fuel = f + 1 := ⟨fuel - 1, by omega⟩
    rw [parseStringBody]
    simp
  | cons c s' ih =>
    intro hv fuel tail hlen
    have hc := hv c (by simp)
    have hv' : validStr s' := fun y hy => hv y (by simp [hy])
    have hesc : escString (c :: s') = escChar c ++ escString s' := rfl
    rw [hesc, List.append_assoc] at hlen ⊢
    have hlenE : (escString s' ++ 34 :: tail).length + (escChar c).length < fuel := by
      rw [List.length_append] at hlen; omega
    by_cases h1 : c = 34
    · subst h1
      rw [show escChar 34 = [92, 34] from rfl] at hlenE ⊢
      obtain ⟨f, rfl⟩ : ∃ f, fuel = f + 1 + 1 := ⟨fuel - 2, by simp at hlenE; omega⟩
      have hlt : (escString s' ++ 34 :: tail).length < f := by simp at hlenE ⊢; omega
      simp only [List.cons_append, List.nil_append]
      simp [parseStringBody, parseEsc, parseEscShort, ih hv' f tail hlt]
    · by_cases h2 : c = 92
      · subst h2
        rw [show escChar 92 = [92, 92] from rfl] at hlenE ⊢
        obtain ⟨f, rfl⟩ : ∃ f, fuel = f + 1 + 1 := ⟨fuel - 2, by simp at hlenE; omega⟩
        have hlt : (escString s' ++ 34 :: tail).length < f := by simp at hlenE ⊢; omega
        simp only [List.cons_append, List.nil_append]
        simp [parseStringBody, parseEsc, parseEscShort, ih hv' f tail hlt]
      · by_cases h3 : c = 8
        · subst h3
          rw [show escChar 8 = [92, 98] from rfl] at hlenE ⊢
          obtain ⟨f, rfl⟩ : ∃ f, fuel = f + 1 + 1 := ⟨fuel - 2, by simp at hlenE; omega⟩
          have hlt : (escString s' ++ 34 :: tail).length < f := by simp at hlenE ⊢; omega
          simp only [List.cons_append, List.nil_append]
          simp [parseStringBody, parseEsc, parseEscShort, ih hv' f tail hlt]
        · by_cases h4 : c = 9
          · subst h4
            rw [show escChar 9 = [92, 116] from rfl] at hlenE ⊢
            obtain ⟨f, rfl⟩ : ∃ f, fuel = f + 1 + 1 := ⟨fuel - 2, by simp at hlenE; omega⟩
            have hlt : (escString s' ++ 34 :: tail).length < f := by simp at hlenE ⊢; omega
            simp only [List.cons_append, List.nil_append]
            simp [parseStringBody, parseEsc, parseEscShort, ih hv' f tail hlt]
          · by_cases h5 : c = 10
            · subst h5
              rw [show escChar 10 = [92, 110] from rfl] at hlenE ⊢
              obtain ⟨f, rfl⟩ : ∃ f, fuel = f + 1 + 1 := ⟨fuel - 2, by simp at hlenE; omega⟩
              have hlt : (escString s' ++ 34 :: tail).length < f := by
                simp at hlenE ⊢; omega
              simp only [List.cons_append, List.nil_append]
              simp [parseStringBody, parseEsc, parseEscShort, ih hv' f tail hlt]
            · by_cases h6 : c = 12
              · subst h6
                rw [show escChar 12 = [92, 102] from rfl] at hlenE ⊢
                obtain ⟨f, rfl⟩ : ∃ f, fuel = f + 1 + 1 :=
                  ⟨fuel - 2, by simp at hlenE; omega⟩
                have hlt : (escString s' ++ 34 :: tail).length < f := by
                  simp at hlenE ⊢; omega
                simp only [List.cons_append, List.nil_append]
                simp [parseStringBody, parseEsc, parseEscShort, ih hv' f tail hlt]
              · by_cases h7 : c = 13
                · subst h7
                  rw [show escChar 13 = [92, 114] from rfl] at hlenE ⊢
                  obtain ⟨f, rfl⟩ : ∃ f, fuel = f + 1 + 1 :=
                    ⟨fuel - 2, by simp at hlenE; omega⟩
                  have hlt : (escString s' ++ 34 :: tail).length < f := by
                    simp at hlenE ⊢; omega
                  simp only [List.cons_append, List.nil_append]
                  simp [parseStringBody, parseEsc, parseEscShort, ih hv' f tail hlt]
                · by_cases h8 : c < 32
                  · have he : escChar c =
                        [92, 117, hexDigitChar (c / 4096 % 16), hexDigitChar (c / 256 % 16),
                         hexDigitChar (c / 16 % 16), hexDigitChar (c % 16)] := by
                      unfold escChar
                      rw [if_neg h1, if_neg h2, if_neg h3, if_neg h4, if_neg h5,
                          if_neg h6, if_neg h7, if_pos h8]
                    rw [he] at hlenE ⊢
                    obtain ⟨f, rfl⟩ : ∃ f, fuel = f + 1 + 1 :=
                      ⟨fuel - 2, by simp at hlenE; omega⟩
                    have hlt : (escString s' ++ 34 :: tail).length < f := by
                      simp at hlenE ⊢; omega
                    simp only [List.cons_append, List.nil_append]
                    rw [parseStringBody]
                    rw [if_neg (by omega), if_pos rfl, parseEsc, if_pos rfl]
                    rw [parseEscU_print f c _ (by omega) (by omega)]
                    rw [ih hv' f tail hlt]
                    rfl
                  · by_cases h9 : c < 127
                    · have he : escChar c = [c] := by
                        unfold escChar
                        rw [if_neg h1, if_neg h2, if_neg h3, if_neg h4, if_neg h5,
                            if_neg h6, if_neg h7, if_neg h8, if_pos h9]
                      rw [he] at hlenE ⊢
                      obtain ⟨f, rfl⟩ : ∃ f, fuel = f + 1 :=
                        ⟨fuel - 1, by simp at hlenE; omega⟩
                      have hlt : (escString s' ++ 34 :: tail).length < f := by
                        simp at hlenE ⊢; omega
                      simp only [List.cons_append, List.nil_append]
                      rw [parseStringBody]
                      rw [if_neg h1, if_neg h2, if_neg h8]
                      rw [ih hv' f tail hlt]
                      rfl
                    · by_cases h10 : c < 65536
                      · have he : escChar c =
                            [92, 117, hexDigitChar (c / 4096 % 16),
                             hexDigitChar (c / 256 % 16), hexDigitChar (c / 16 % 16),
                             hexDigitChar (c % 16)] := by
                          unfold escChar
                          rw [if_neg h1, if_neg h2, if_neg h3, if_neg h4, if_neg h5,
                              if_neg h6, if_neg h7, if_neg h8, if_neg h9, if_pos h10]
                        rw [he] at hlenE ⊢
                        obtain ⟨f, rfl⟩ : ∃ f, fuel = f + 1 + 1 :=
                          ⟨fuel - 2, by simp at hlenE; omega⟩
                        have hlt : (escString s' ++ 34 :: tail).length < f := by
                          simp at hlenE ⊢; omega
                        simp only [List.cons_append, List.nil_append]
                        rw [parseStringBody]
                        rw [if_neg (by omega), if_pos rfl, parseEsc, if_pos rfl]
                        have hns : ¬(55296 ≤ c ∧ c ≤ 56319) := by
                          rcases hc with ⟨_, hns'⟩; omega
                        rw [parseEscU_print f c _ h10 hns]
                        rw [ih hv' f tail hlt]
                        rfl
                      · have hup : c < 1114112 := hc.1
                        have he : escChar c =
                            [92, 117,
                             hexDigitChar ((55296 + (c - 65536) / 1024) / 4096 % 16),
                             hexDigitChar ((55296 + (c - 65536) / 1024) / 256 % 16),
                             hexDigitChar ((55296 + (c - 65536) / 1024) / 16 % 16),
                             hexDigitChar ((55296 + (c - 65536) / 1024) % 16),
                             92, 117,
                             hexDigitChar ((56320 + (c - 65536) % 1024) / 4096 % 16),
                             hexDigitChar ((56320 + (c - 65536) % 1024) / 256 % 16),
                             hexDigitChar ((56320 + (c - 65536) % 1024) / 16 % 16),
                             hexDigitChar ((56320 + (c - 65536) % 1024) % 16)] := by
                          unfold escChar
                          rw [if_neg h1, if_neg h2, if_neg h3, if_neg h4, if_neg h5,
                              if_neg h6, if_neg h7, if_neg h8, if_neg h9, if_neg h10]
                        rw [he] at hlenE ⊢
                        obtain ⟨f, rfl⟩ : ∃ f, fuel = f + 1 + 1 :=
                          ⟨fuel - 2, by simp at hlenE; omega⟩
                        have hlt : (escString s' ++ 34 :: tail).length < f := by
                          simp at hlenE ⊢; omega
                        simp only [List.cons_append, List.nil_append]
                        rw [parseStringBody]
                        rw [if_neg (by omega), if_pos rfl, parseEsc, if_pos rfl]
                        rw [parseEscU_pair_gen f (55296 + (c - 65536) / 1024)
                              (56320 + (c - 65536) % 1024) _ (by omega) (by omega)]
                        have hcomb : 65536 + (55296 + (c - 65536) / 1024 - 55296) * 1024
                            + (56320 + (c - 65536) % 1024 - 56320) = c := by omega
                        rw [hcomb, ih hv' f tail hlt]
                        rfl

/-! ## Lemmas: whitespace and numbers -/

theorem skipWs_not {c : Nat} (h : jsonWs c = false) (r : List Nat) :
    skipWs (c :: r) = c :: r := by
  rw [skipWs, h]
  simp

theorem skipWs_ws {c : Nat} (h : jsonWs c = true) (r : List Nat) :
    skipWs (c :: r) = skipWs r := by
  rw [skipWs, h]
  simp

theorem spanDigits_exact {ds : List Nat} (hds : ∀ x ∈ ds, 48 ≤ x ∧ x ≤ 57) :
    ∀ after : List Nat,
      (after = [] ∨ ∃ a t, after = a :: t ∧ isDigitChar a = false) →
      spanDigits (ds ++ after) = (ds, after) := by
  induction ds with
  | nil =>
    intro after hafter
    rcases hafter with rfl | ⟨a, t, rfl, ha⟩
    · rfl
    · show spanDigits (a :: t) = ([], a :: t)
      rw [spanDigits, ha]
      simp
  | cons d ds ih =>
    intro after hafter
    have hd := hds d (by simp)
    have hdig : isDigitChar d = true := by simp [isDigitChar]; omega
    show spanDigits (d :: (ds ++ after)) = (d :: ds, after)
    rw [spanDigits, hdig]
    simp only [if_true]
    rw [ih (fun x hx => hds x (by simp [hx])) after hafter]

theorem afterInt_finish (neg : Bool) (ids : List Nat) (after : List Nat)
    (hafter : after = [] ∨ ∃ a t, after = a :: t ∧ a ≠ 46 ∧ a ≠ 101 ∧ a ≠ 69) :
    afterInt neg ids after
      = some (.num (if neg then -(ofDigits ids : Int) else (ofDigits ids : Int)), after) := by
  rcases hafter with rfl | ⟨a, t, rfl, h46, h101, h69⟩
  · simp [afterInt]
  · simp [afterInt, h46, h101, h69]

theorem natDigits_zero : natDigits 0 = [48] := by
  rw [natDigits_eq]
  simp

theorem natDigits_cons : ∀ n, ∃ h t, natDigits n = h :: t ∧ 48 ≤ h ∧ h ≤ 57 := by
  intro n
  rcases Nat.eq_zero_or_pos n with rfl | hpos
  · exact ⟨48, [], natDigits_zero, by omega, by omega⟩
  · obtain ⟨h, t, he, h1, h2⟩ := natDigits_head_pos n hpos
    exact ⟨h, t, he, by omega, by omega⟩

theorem parseNumberCore_digits (neg : Bool) {h0 : Nat} (t0 after : List Nat)
    (hp : 49 ≤ h0 ∧ h0 ≤ 57) (ht0 : ∀ x ∈ t0, 48 ≤ x ∧ x ≤ 57)
    (hafterSpan : after = [] ∨ ∃ a t, after = a :: t ∧ isDigitChar a = false)
    (hafterFin : after = [] ∨ ∃ a t, after = a :: t ∧ a ≠ 46 ∧ a ≠ 101 ∧ a ≠ 69) :
    parseNumberCore neg (h0 :: (t0 ++ after))
      = some (.num (if neg then -(ofDigits (h0 :: t0) : Int)
                    else (ofDigits (h0 :: t0) : Int)), after) := by
  rw [parseNumberCore]
  rw [if_neg (by omega : ¬h0 = 48), if_pos hp]
  rw [spanDigits_exact ht0 after hafterSpan]
  exact afterInt_finish neg (h0 :: t0) after hafterFin

theorem parseNumber_intRepr (d : Int) (after : List Nat)
    (hafter : after = [] ∨
      ∃ a t, after = a :: t ∧ isDigitChar a = false ∧ a ≠ 46 ∧ a ≠ 101 ∧ a ≠ 69) :
    parseNumber (intRepr d ++ after) = some (.num d, after) := by
  have hafterSpan : after = [] ∨ ∃ a t, after = a :: t ∧ isDigitChar a = false := by
    rcases hafter with rfl | ⟨a, t, rfl, h1, _, _, _⟩
    · exact Or.inl rfl
    · exact Or.inr ⟨a, t, rfl, h1⟩
  have hafterFin : after = [] ∨ ∃ a t, after = a :: t ∧ a ≠ 46 ∧ a ≠ 101 ∧ a ≠ 69 := by
    rcases hafter with rfl | ⟨a, t, rfl, _, h2, h3, h4⟩
    · exact Or.inl rfl
    · exact Or.inr ⟨a, t, rfl, h2, h3, h4⟩
  by_cases hneg : d < 0
  · have hrepr : intRepr d = 45 :: natDigits d.natAbs := by
      unfold intRepr; rw [if_pos hneg]
    have habs : 1 ≤ d.natAbs := by omega
    obtain ⟨h0, t0, he0, hp1, hp2⟩ := natDigits_head_pos d.natAbs habs
    rw [hrepr, he0]
    show parseNumber (45 :: (h0 :: (t0 ++ after))) = some (.num d, after)
    rw [parseNumber, if_pos rfl]
    rw [parseNumberCore_digits true t0 after ⟨hp1, hp2⟩
          (fun x hx => mem_natDigits d.natAbs x (by rw [he0]; simp [hx]))
          hafterSpan hafterFin]
    have hv : ofDigits (h0 :: t0) = d.natAbs := by rw [← he0, ofDigits_natDigits]
    have hd : -(d.natAbs : Int) = d := by omega
    show some (JVal.num (-(ofDigits (h0 :: t0) : Int)), after) = some (.num d, after)
    rw [hv, hd]
  · have hrepr : intRepr d = natDigits d.toNat := by
      unfold intRepr; rw [if_neg hneg]
    rcases Nat.eq_zero_or_pos d.toNat with hz | hpos
    · have hd0 : d = 0 := by omega
      rw [hrepr, hz, natDigits_zero]
      show parseNumber (48 :: after) = some (.num d, after)
      rw [parseNumber, if_neg (by omega : ¬(48 : Nat) = 45)]
      rw [parseNumberCore, if_pos rfl]
      rw [afterInt_finish false [48] after hafterFin]
      show some (JVal.num (ofDigits [48] : Int), after) = some (.num d, after)
      rw [hd0]
      rfl
    · obtain ⟨h0, t0, he0, hp1, hp2⟩ := natDigits_head_pos d.toNat hpos
      rw [hrepr, he0]
      show parseNumber (h0 :: (t0 ++ after)) = some (.num d, after)
      rw [parseNumber, if_neg (by omega : ¬h0 = 45)]
      rw [parseNumberCore_digits false t0 after ⟨hp1, hp2⟩
            (fun x hx => mem_natDigits d.toNat x (by rw [he0]; simp [hx]))
            hafterSpan hafterFin]
      have hv : ofDigits (h0 :: t0) = d.toNat := by rw [← he0, ofDigits_natDigits]
      have hd : (d.toNat : Int) = d := by omega
      show some (JVal.num (ofDigits (h0 :: t0) : Int), after) = some (.num d, after)
      rw [hv, hd]

/-! ## Lemmas: scanning serialized values and object members -/

theorem parseVal_str (s after : List Nat) (hv : validStr s) :
    ∀ F, (34 :: (escString s ++ 34 :: after)).length < F →
      parseVal F (34 :: (escString s ++ 34 :: after)) = some (.str s, after) := by
  intro F hF
  obtain ⟨h, rfl⟩ : ∃ h, F = h + 1 :=
    ⟨F - 1, by simp only [List.length_cons, List.length_append] at hF; omega⟩
  rw [parseVal]
  simp only [if_pos rfl]
  rw [parseStringBody_print s hv h after
        (by simp only [List.length_cons, List.length_append] at hF ⊢; omega)]
  rfl

theorem parseVal_int (d : Int) (after : List Nat) (F : Nat) (hF : 1 ≤ F)
    (hafter : after = [] ∨
      ∃ a t, after = a :: t ∧ isDigitChar a = false ∧ a ≠ 46 ∧ a ≠ 101 ∧ a ≠ 69) :
    parseVal F (intRepr d ++ after) = some (.num d, after) := by
  obtain ⟨h, rfl⟩ : ∃ h, F = h + 1 := ⟨F - 1, by omega⟩
  have hn := parseNumber_intRepr d after hafter
  by_cases hneg : d < 0
  · have hrepr : intRepr d = 45 :: natDigits d.natAbs := by
      unfold intRepr; rw [if_pos hneg]
    rw [hrepr] at hn ⊢
    simp only [List.cons_append] at hn ⊢
    rw [parseVal]
    have hno : (45 : Nat) ≠ 34 ∧ (45 : Nat) ≠ 123 ∧ (45 : Nat) ≠ 91 ∧ (45 : Nat) ≠ 110
        ∧ (45 : Nat) ≠ 116 ∧ (45 : Nat) ≠ 102 ∧ (45 : Nat) ≠ 78 ∧ (45 : Nat) ≠ 73 := by
      decide
    rw [if_neg hno.1, if_neg hno.2.1, if_neg hno.2.2.1, if_neg hno.2.2.2.1,
        if_neg hno.2.2.2.2.1, if_neg hno.2.2.2.2.2.1, if_neg hno.2.2.2.2.2.2.1,
        if_neg hno.2.2.2.2.2.2.2]
    rw [hn]
  · have hrepr : intRepr d = natDigits d.toNat := by
      unfold intRepr; rw [if_neg hneg]
    obtain ⟨h0, t0, he0, hp1, hp2⟩ := natDigits_cons d.toNat
    rw [hrepr, he0] at hn ⊢
    simp only [List.cons_append] at hn ⊢
    rw [parseVal]
    have hno : h0 ≠ 34 ∧ h0 ≠ 123 ∧ h0 ≠ 91 ∧ h0 ≠ 110 ∧ h0 ≠ 116 ∧ h0 ≠ 102
        ∧ h0 ≠ 78 ∧ h0 ≠ 73 := by omega
    rw [if_neg hno.1, if_neg hno.2.1, if_neg hno.2.2.1, if_neg hno.2.2.2.1,
        if_neg hno.2.2.2.2.1, if_neg hno.2.2.2.2.2.1, if_neg hno.2.2.2.2.2.2.1,
        if_neg hno.2.2.2.2.2.2.2]
    rw [hn]

theorem parseMembers_last (L : Nat) (key vchars : List Nat) (v : JVal)
    (rest : List Nat) (hkey : validStr key)
    (hvhead : skipWs (vchars ++ 125 :: rest) = vchars ++ 125 :: rest)
    (hval : ∀ F, (vchars ++ 125 :: rest).length < F →
      parseVal F (vchars ++ 125 :: rest) = some (v, 125 :: rest))
    (hL : (34 :: (escString key ++ 34 :: 58 :: 32 :: (vchars ++ 125 :: rest))).length < L) :
    parseMembers L (34 :: (escString key ++ 34 :: 58 :: 32 :: (vchars ++ 125 :: rest)))
      = some ([(key, v)], rest) := by
  obtain ⟨g, rfl⟩ : ∃ g, L = g + 1 :=
    ⟨L - 1, by simp only [List.length_cons, List.length_append] at hL; omega⟩
  rw [parseMembers]
  simp only [if_pos rfl]
  rw [parseStringBody_print key hkey g (58 :: 32 :: (vchars ++ 125 :: rest))
        (by simp only [List.length_cons, List.length_append] at hL ⊢; omega)]
  simp only
  rw [skipWs_not (show jsonWs 58 = false from rfl)]
  simp only [if_pos rfl]
  rw [skipWs_ws (show jsonWs 32 = true from rfl), hvhead]
  rw [hval g (by simp only [List.length_cons, List.length_append] at hL ⊢; omega)]
  simp only
  rw [skipWs_not (show jsonWs 125 = false from rfl)]
  simp only [if_pos rfl, if_neg (show ¬(125 : Nat) = 44 from by omega)]
  simp

theorem parseMembers_step (L : Nat) (key vchars : List Nat) (v : JVal)
    (cont : List Nat) (out : List (List Nat × JVal)) (rest : List Nat)
    (hkey : validStr key)
    (hvhead : skipWs (vchars ++ 44 :: 32 :: cont) = vchars ++ 44 :: 32 :: cont)
    (hval : ∀ F, (vchars ++ 44 :: 32 :: cont).length < F →
      parseVal F (vchars ++ 44 :: 32 :: cont) = some (v, 44 :: 32 :: cont))
    (hconthead : skipWs cont = cont)
    (hcont : ∀ L2, cont.length < L2 → parseMembers L2 cont = some (out, rest))
    (hL : (34 :: (escString key ++ 34 :: 58 :: 32 :: (vchars ++ 44 :: 32 :: cont))).length
      < L) :
    parseMembers L (34 :: (escString key ++ 34 :: 58 :: 32 :: (vchars ++ 44 :: 32 :: cont)))
      = some ((key, v) :: out, rest) := by
  obtain ⟨g, rfl⟩ : ∃ g, L = g + 1 :=
    ⟨L - 1, by simp only [List.length_cons, List.length_append] at hL; omega⟩
  rw [parseMembers]
  simp only [if_pos rfl]
  rw [parseStringBody_print key hkey g (58 :: 32 :: (vchars ++ 44 :: 32 :: cont))
        (by simp only [List.length_cons, List.length_append] at hL ⊢; omega)]
  simp only
  rw [skipWs_not (show jsonWs 58 = false from rfl)]
  simp only [if_pos rfl]
  rw [skipWs_ws (show jsonWs 32 = true from rfl), hvhead]
  rw [hval g (by simp only [List.length_cons, List.length_append] at hL ⊢; omega)]
  simp only
  rw [skipWs_not (show jsonWs 44 = false from rfl)]
  simp only [if_pos rfl]
  rw [skipWs_ws (show jsonWs 32 = true from rfl), hconthead]
  rw [hcont g (by simp only [List.length_cons, List.length_append] at hL ⊢; omega)]
  rfl

/-! ## Lemmas: serialized claims are ASCII and parse back -/

theorem encJStr_shape (s X : List Nat) :
    encJStr s ++ X = 34 :: (escString s ++ 34 :: X) := by
  simp [encJStr]

theorem parseVal_encJStr (s : List Nat) (hs : validStr s) (X : List Nat) :
    ∀ F, (encJStr s ++ X).length < F →
      parseVal F (encJStr s ++ X) = some (.str s, X) := by
  intro F hlen
  rw [encJStr_shape] at hlen ⊢
  exact parseVal_str s X hs F hlen

theorem skipWs_encJStr (s X : List Nat) : skipWs (encJStr s ++ X) = encJStr s ++ X := by
  rw [encJStr_shape]
  exact skipWs_not (show jsonWs 34 = false from rfl) (escString s ++ 34 :: X)

theorem intRepr_head :
    ∀ d : Int, ∃ h0 t0, intRepr d = h0 :: t0 ∧ (h0 = 45 ∨ (48 ≤ h0 ∧ h0 ≤ 57)) := by
  intro d
  by_cases hneg : d < 0
  · exact ⟨45, natDigits d.natAbs, by unfold intRepr; rw [if_pos hneg], Or.inl rfl⟩
  · obtain ⟨h0, t0, he0, h1, h2⟩ := natDigits_cons d.toNat
    exact ⟨h0, t0, by unfold intRepr; rw [if_neg hneg]; exact he0, Or.inr ⟨h1, h2⟩⟩

theorem skipWs_intRepr (d : Int) (X : List Nat) :
    skipWs (intRepr d ++ X) = intRepr d ++ X := by
  obtain ⟨h0, t0, he0, hr⟩ := intRepr_head d
  rw [he0]
  show skipWs (h0 :: (t0 ++ X)) = h0 :: (t0 ++ X)
  apply skipWs_not
  simp [jsonWs]
  omega

set_option maxRecDepth 4000 in
theorem mem_escChar_lt_128 {c : Nat} (hc : c < 1114112) :
    ∀ x ∈ escChar c, x < 128 := by
  have hhex : ∀ d : Nat, d < 16 → hexDigitChar d < 128 := by decide
  by_cases h1 : c = 34
  · subst h1; intro x hx; simp [escChar] at hx; omega
  · by_cases h2 : c = 92
    · subst h2; intro x hx; simp [escChar] at hx; omega
    · by_cases h3 : c = 8
      · subst h3; intro x hx; simp [escChar] at hx; omega
      · by_cases h4 : c = 9
        · subst h4; intro x hx; simp [escChar] at hx; omega
        · by_cases h5 : c = 10
          · subst h5; intro x hx; simp [escChar] at hx; omega
          · by_cases h6 : c = 12
            · subst h6; intro x hx; simp [escChar] at hx; omega
            · by_cases h7 : c = 13
              · subst h7; intro x hx; simp [escChar] at hx; omega
              · by_cases h8 : c < 32
                · have he : escChar c =
                      [92, 117, hexDigitChar (c / 4096 % 16), hexDigitChar (c / 256 % 16),
                       hexDigitChar (c / 16 % 16), hexDigitChar (c % 16)] := by
                    unfold escChar
                    rw [if_neg h1, if_neg h2, if_neg h3, if_neg h4, if_neg h5,
                        if_neg h6, if_neg h7, if_pos h8]
                  rw [he]
                  intro x hx
                  simp at hx
                  rcases hx with h | h | h | h | h | h <;>
                    subst h <;> first | omega | exact hhex _ (by omega)
                · by_cases h9 : c < 127
                  · have he : escChar c = [c] := by
                      unfold escChar
                      rw [if_neg h1, if_neg h2, if_neg h3, if_neg h4, if_neg h5,
                          if_neg h6, if_neg h7, if_neg h8, if_pos h9]
                    rw [he]
                    intro x hx
                    simp at hx
                    omega
                  · by_cases h10 : c < 65536
                    · have he : escChar c =
                          [92, 117, hexDigitChar (c / 4096 % 16),
                           hexDigitChar (c / 256 % 16), hexDigitChar (c / 16 % 16),
                           hexDigitChar (c % 16)] := by
                        unfold escChar
                        rw [if_neg h1, if_neg h2, if_neg h3, if_neg h4, if_neg h5,
                            if_neg h6, if_neg h7, if_neg h8, if_neg h9, if_pos h10]
                      rw [he]
                      intro x hx
                      simp at hx
                      rcases hx with h | h | h | h | h | h <;>
                        subst h <;> first | omega | exact hhex _ (by omega)
                    · have he : escChar c =
                          [92, 117,
                           hexDigitChar ((55296 + (c - 65536) / 1024) / 4096 % 16),
                           hexDigitChar ((55296 + (c - 65536) / 1024) / 256 % 16),
                           hexDigitChar ((55296 + (c - 65536) / 1024) / 16 % 16),
                           hexDigitChar ((55296 + (c - 65536) / 1024) % 16),
                           92, 117,
                           hexDigitChar ((56320 + (c - 65536) % 1024) / 4096 % 16),
                           hexDigitChar ((56320 + (c - 65536) % 1024) / 256 % 16),
                           hexDigitChar ((56320 + (c - 65536) % 1024) / 16 % 16),
                           hexDigitChar ((56320 + (c - 65536) % 1024) % 16)] := by
                        unfold escChar
                        rw [if_neg h1, if_neg h2, if_neg h3, if_neg h4, if_neg h5,
                            if_neg h6, if_neg h7, if_neg h8, if_neg h9, if_neg h10]
                      rw [he]
                      intro x hx
                      simp at hx
                      rcases hx with h | h | h | h | h | h | h | h | h | h | h | h <;>
                        rw [h] <;> first | omega | exact hhex _ (by omega)

theorem mem_escString_lt_128 {s : List Nat} (hs : validStr s) :
    ∀ x ∈ escString s, x < 128 := by
  induction s with
  | nil => intro x hx; simp [escString, concatMap] at hx
  | cons c s' ih =>
    intro x hx
    have hx' : x ∈ escChar c ∨ x ∈ escString s' := by
      simpa [escString, concatMap] using hx
    rcases hx' with h | h
    · exact mem_escChar_lt_128 (hs c (by simp)).1 x h
    · exact ih (fun y hy => hs y (by simp [hy])) x h

theorem mem_encJStr_lt_128 {s : List Nat} (hs : validStr s) :
    ∀ x ∈ encJStr s, x < 128 := by
  intro x hx
  have hx' : x = 34 ∨ x ∈ escString s ∨ x = 34 := by
    simpa [encJStr] using hx
  rcases hx' with h | h | h
  · omega
  · exact mem_escString_lt_128 hs x h
  · omega

theorem mem_intRepr_lt_128 (d : Int) : ∀ x ∈ intRepr d, x < 128 := by
  intro x hx
  unfold intRepr at hx
  split at hx
  · simp at hx
    rcases hx with h | h
    · omega
    · have := mem_natDigits d.natAbs x h
      omega
  · have := mem_natDigits d.toNat x hx
    omega

theorem mem_jsonDumpsClaims_lt_128 {c : Claims} (hm : validStr c.machine_id)
    (hex : validStr c.expires) (his : validStr c.issued) :
    ∀ x ∈ jsonDumpsClaims c, x < 128 := by
  have hkMI : validStr keyMachineId := by decide
  have hkEx : validStr keyExpires := by decide
  have hkIs : validStr keyIssued := by decide
  have hkDV : validStr keyDaysValid := by decide
  simp only [jsonDumpsClaims, List.forall_mem_append]
  repeat' apply And.intro
  all_goals
    first
      | decide
      | exact mem_encJStr_lt_128 hkMI
      | exact mem_encJStr_lt_128 hkEx
      | exact mem_encJStr_lt_128 hkIs
      | exact mem_encJStr_lt_128 hkDV
      | exact mem_encJStr_lt_128 hm
      | exact mem_encJStr_lt_128 hex
      | exact mem_encJStr_lt_128 his
      | exact mem_intRepr_lt_128 c.days_valid


theorem jsonDumps_shape (c : Claims) (rest : List Nat) :
    jsonDumpsClaims c ++ rest = 123 :: (34 :: (escString keyMachineId ++ 34 :: 58 :: 32 :: (encJStr c.machine_id ++ 44 :: 32 :: (34 :: (escString keyExpires ++ 34 :: 58 :: 32 :: (encJStr c.expires ++ 44 :: 32 :: (34 :: (escString keyIssued ++ 34 :: 58 :: 32 :: (encJStr c.issued ++ 44 :: 32 :: (34 :: (escString keyDaysValid ++ 34 :: 58 :: 32 :: (intRepr c.days_valid ++ 125 :: rest)))))))))))) := by
  simp [jsonDumpsClaims, encJStr, List.append_assoc]

theorem parseVal_dumps (c : Claims) (hm : validStr c.machine_id)
    (hex : validStr c.expires) (his : validStr c.issued) :
    ∀ F rest, (jsonDumpsClaims c ++ rest).length < F →
      parseVal F (jsonDumpsClaims c ++ rest) = some (claimsJVal c, rest) := by
  intro F rest hF
  have hkMI : validStr keyMachineId := by decide
  have hkEx : validStr keyExpires := by decide
  have hkIs : validStr keyIssued := by decide
  have hkDV : validStr keyDaysValid := by decide
  obtain ⟨f, rfl⟩ : ∃ f, F = f + 1 := ⟨F - 1, by omega⟩
  rw [jsonDumps_shape] at hF ⊢
  have mb4 : ∀ L, (34 :: (escString keyDaysValid ++ 34 :: 58 :: 32 :: (intRepr c.days_valid ++ 125 :: rest))).length < L →
      parseMembers L (34 :: (escString keyDaysValid ++ 34 :: 58 :: 32 :: (intRepr c.days_valid ++ 125 :: rest))) = some ([(keyDaysValid, JVal.num c.days_valid)], rest) := by
    intro L hL
    refine parseMembers_last L keyDaysValid (intRepr c.days_valid) (JVal.num c.days_valid)
      rest hkDV (skipWs_intRepr c.days_valid (125 :: rest)) ?_ hL
    intro F hlen
    exact parseVal_int c.days_valid (125 :: rest) F (by omega)
      (Or.inr ⟨125, rest, rfl, rfl, by omega, by omega, by omega⟩)
  have mb3 : ∀ L, (34 :: (escString keyIssued ++ 34 :: 58 :: 32 :: (encJStr c.issued ++ 44 :: 32 :: (34 :: (escString keyDaysValid ++ 34 :: 58 :: 32 :: (intRepr c.days_valid ++ 125 :: rest)))))).length < L →
      parseMembers L (34 :: (escString keyIssued ++ 34 :: 58 :: 32 :: (encJStr c.issued ++ 44 :: 32 :: (34 :: (escString keyDaysValid ++ 34 :: 58 :: 32 :: (intRepr c.days_valid ++ 125 :: rest)))))) = some ((keyIssued, JVal.str c.issued) :: [(keyDaysValid, JVal.num c.days_valid)], rest) := by
    intro L hL
    refine parseMembers_step L keyIssued (encJStr c.issued) (JVal.str c.issued)
      (34 :: (escString keyDaysValid ++ 34 :: 58 :: 32 :: (intRepr c.days_valid ++ 125 :: rest))) ([(keyDaysValid, JVal.num c.days_valid)]) rest hkIs
      (skipWs_encJStr c.issued (44 :: 32 :: (34 :: (escString keyDaysValid ++ 34 :: 58 :: 32 :: (intRepr c.days_valid ++ 125 :: rest)))))
      (fun F hlen => parseVal_encJStr c.issued his (44 :: 32 :: (34 :: (escString keyDaysValid ++ 34 :: 58 :: 32 :: (intRepr c.days_valid ++ 125 :: rest)))) F hlen)
      (skipWs_not (show jsonWs 34 = false from rfl) (escString keyDaysValid ++ 34 :: 58 :: 32 :: (intRepr c.days_valid ++ 125 :: rest)))
      mb4 hL
  have mb2 : ∀ L, (34 :: (escString keyExpires ++ 34 :: 58 :: 32 :: (encJStr c.expires ++ 44 :: 32 :: (34 :: (escString keyIssued ++ 34 :: 58 :: 32 :: (encJStr c.issued ++ 44 :: 32 :: (34 :: (escString keyDaysValid ++ 34 :: 58 :: 32 :: (intRepr c.days_valid ++ 125 :: rest))))))))).length < L →
      parseMembers L (34 :: (escString keyExpires ++ 34 :: 58 :: 32 :: (encJStr c.expires ++ 44 :: 32 :: (34 :: (escString keyIssued ++ 34 :: 58 :: 32 :: (encJStr c.issued ++ 44 :: 32 :: (34 :: (escString keyDaysValid ++ 34 :: 58 :: 32 :: (intRepr c.days_valid ++ 125 :: rest))))))))) = some ((keyExpires, JVal.str c.expires) :: ((keyIssued, JVal.str c.issued) :: [(keyDaysValid, JVal.num c.days_valid)]), rest) := by
    intro L hL
    refine parseMembers_step L keyExpires (encJStr c.expires) (JVal.str c.expires)
      (34 :: (escString keyIssued ++ 34 :: 58 :: 32 :: (encJStr c.issued ++ 44 :: 32 :: (34 :: (escString keyDaysValid ++ 34 :: 58 :: 32 :: (intRepr c.days_valid ++ 125 :: rest)))))) ((keyIssued, JVal.str c.issued) :: [(keyDaysValid, JVal.num c.days_valid)]) rest hkEx
      (skipWs_encJStr c.expires (44 :: 32 :: (34 :: (escString keyIssued ++ 34 :: 58 :: 32 :: (encJStr c.issued ++ 44 :: 32 :: (34 :: (escString keyDaysValid ++ 34 :: 58 :: 32 :: (intRepr c.days_valid ++ 125 :: rest))))))))
      (fun F hlen => parseVal_encJStr c.expires hex (44 :: 32 :: (34 :: (escString keyIssued ++ 34 :: 58 :: 32 :: (encJStr c.issued ++ 44 :: 32 :: (34 :: (escString keyDaysValid ++ 34 :: 58 :: 32 :: (intRepr c.days_valid ++ 125 :: rest))))))) F hlen)
      (skipWs_not (show jsonWs 34 = false from rfl) (escString keyIssued ++ 34 :: 58 :: 32 :: (encJStr c.issued ++ 44 :: 32 :: (34 :: (escString keyDaysValid ++ 34 :: 58 :: 32 :: (intRepr c.days_valid ++ 125 :: rest))))))
      mb3 hL
  have mb1 : ∀ L, (34 :: (escString keyMachineId ++ 34 :: 58 :: 32 :: (encJStr c.machine_id ++ 44 :: 32 :: (34 :: (escString keyExpires ++ 34 :: 58 :: 32 :: (encJStr c.expires ++ 44 :: 32 :: (34 :: (escString keyIssued ++ 34 :: 58 :: 32 :: (encJStr c.issued ++ 44 :: 32 :: (34 :: (escString keyDaysValid ++ 34 :: 58 :: 32 :: (intRepr c.days_valid ++ 125 :: rest)))))))))))).length < L →
      parseMembers L (34 :: (escString keyMachineId ++ 34 :: 58 :: 32 :: (encJStr c.machine_id ++ 44 :: 32 :: (34 :: (escString keyExpires ++ 34 :: 58 :: 32 :: (encJStr c.expires ++ 44 :: 32 :: (34 :: (escString keyIssued ++ 34 :: 58 :: 32 :: (encJStr c.issued ++ 44 :: 32 :: (34 :: (escString keyDaysValid ++ 34 :: 58 :: 32 :: (intRepr c.days_valid ++ 125 :: rest)))))))))))) = some ((keyMachineId, JVal.str c.machine_id) :: ((keyExpires, JVal.str c.expires) :: ((keyIssued, JVal.str c.issued) :: [(keyDaysValid, JVal.num c.days_valid)])), rest) := by
    intro L hL
    refine parseMembers_step L keyMachineId (encJStr c.machine_id) (JVal.str c.machine_id)
      (34 :: (escString keyExpires ++ 34 :: 58 :: 32 :: (encJStr c.expires ++ 44 :: 32 :: (34 :: (escString keyIssued ++ 34 :: 58 :: 32 :: (encJStr c.issued ++ 44 :: 32 :: (34 :: (escString keyDaysValid ++ 34 :: 58 :: 32 :: (intRepr c.days_valid ++ 125 :: rest))))))))) ((keyExpires, JVal.str c.expires) :: ((keyIssued, JVal.str c.issued) :: [(keyDaysValid, JVal.num c.days_valid)])) rest hkMI
      (skipWs_encJStr c.machine_id (44 :: 32 :: (34 :: (escString keyExpires ++ 34 :: 58 :: 32 :: (encJStr c.expires ++ 44 :: 32 :: (34 :: (escString keyIssued ++ 34 :: 58 :: 32 :: (encJStr c.issued ++ 44 :: 32 :: (34 :: (escString keyDaysValid ++ 34 :: 58 :: 32 :: (intRepr c.days_valid ++ 125 :: rest)))))))))))
      (fun F hlen => parseVal_encJStr c.machine_id hm (44 :: 32 :: (34 :: (escString keyExpires ++ 34 :: 58 :: 32 :: (encJStr c.expires ++ 44 :: 32 :: (34 :: (escString keyIssued ++ 34 :: 58 :: 32 :: (encJStr c.issued ++ 44 :: 32 :: (34 :: (escString keyDaysValid ++ 34 :: 58 :: 32 :: (intRepr c.days_valid ++ 125 :: rest)))))))))) F hlen)
      (skipWs_not (show jsonWs 34 = false from rfl) (escString keyExpires ++ 34 :: 58 :: 32 :: (encJStr c.expires ++ 44 :: 32 :: (34 :: (escString keyIssued ++ 34 :: 58 :: 32 :: (encJStr c.issued ++ 44 :: 32 :: (34 :: (escString keyDaysValid ++ 34 :: 58 :: 32 :: (intRepr c.days_valid ++ 125 :: rest)))))))))
      mb2 hL
  rw [parseVal]
  rw [if_neg (by omega), if_pos rfl]
  rw [skipWs_not (show jsonWs 34 = false from rfl)]
  simp only [if_neg (show ¬(34 : Nat) = 125 from by omega)]
  rw [mb1 f (by simp only [List.length_cons, List.length_append] at hF ⊢; omega)]
  rfl


theorem jsonLoads_dumps (c : Claims) (hm : validStr c.machine_id)
    (hex : validStr c.expires) (his : validStr c.issued) :
    jsonLoads (jsonDumpsClaims c) = some (claimsJVal c) := by
  have hshape0 := jsonDumps_shape c []
  rw [List.append_nil] at hshape0
  have hskip : skipWs (jsonDumpsClaims c) = jsonDumpsClaims c := by
    rw [hshape0]
    exact skipWs_not (show jsonWs 123 = false from rfl) _
  have hparse := parseVal_dumps c hm hex his ((jsonDumpsClaims c).length + 1) []
    (by simp)
  rw [List.append_nil] at hparse
  simp only [jsonLoads]
  rw [hskip, hparse]
  rfl

set_option maxHeartbeats 1000000 in
theorem toClaims_claimsJVal (c : Claims) : toClaims (claimsJVal c) = some c := by
  simp [toClaims, claimsJVal, lookupLast, keyMachineId, keyExpires, keyIssued,
    keyDaysValid]

theorem canonicalize_bytes {c : Claims} (hm : validStr c.machine_id)
    (hex : validStr c.expires) (his : validStr c.issued) :
    canonicalize c = jsonDumpsClaims c := by
  unfold canonicalize
  exact utf8EncodeStr_ascii (mem_jsonDumpsClaims_lt_128 hm hex his)

theorem decanonicalize_canonicalize {c : Claims} (hm : validStr c.machine_id)
    (hex : validStr c.expires) (his : validStr c.issued) :
    decanonicalize (canonicalize c) = some c := by
  unfold decanonicalize
  rw [canonicalize_bytes hm hex his]
  rw [utf8Decode_ascii (mem_jsonDumpsClaims_lt_128 hm hex his)]
  rw [Option.some_bind]
  rw [jsonLoads_dumps c hm hex his]
  rw [Option.some_bind]
  exact toClaims_claimsJVal c

/-! ## Lemmas: the issue/verify pipeline -/

theorem validStr_intRepr (d : Int) : validStr (intRepr d) := by
  intro x hx
  unfold intRepr at hx
  split at hx
  · simp at hx
    rcases hx with h | h
    · omega
    · have := mem_natDigits d.natAbs x h
      omega
  · have := mem_natDigits d.toNat x hx
    omega

theorem licenseData_valid {mid : List Nat} (hm : validStr mid) (days : Int)
    (t1 t2 : Int) :
    validStr (licenseData mid days t1 t2).machine_id ∧
    validStr (licenseData mid days t1 t2).expires ∧
    validStr (licenseData mid days t1 t2).issued :=
  ⟨hm, validStr_intRepr _, validStr_intRepr _⟩

theorem licensePayload_eq {mid : List Nat} (hm : validStr mid) (days : Int)
    (t1 t2 : Int) :
    licensePayload mid days t1 t2 = jsonDumpsClaims (licenseData mid days t1 t2) := by
  unfold licensePayload
  exact utf8EncodeStr_ascii
    (mem_jsonDumpsClaims_lt_128 hm (validStr_intRepr _) (validStr_intRepr _))

/-! ## Lemmas: batch issuing and totality of validation -/

theorem make_license_key_ne_nil (sk : Nat) (mid : List Nat) (days : Int)
    (clock : Nat → Int) (nonce : Nat) : (make_license sk mid days clock nonce).1 ≠ [] := by
  unfold make_license
  simp only
  generalize licensePayload mid days (clock 0) (clock 1) = P
  cases P with
  | nil => exact b64encode_ne_nil
  | cons a l => exact b64encode_ne_nil

theorem dictInsert_keys {d : List (List Nat × List Nat)} {k : List Nat}
    (hk : k ∉ d.map Prod.fst) (v : List Nat) :
    (dictInsert d k v).map Prod.fst = d.map Prod.fst ++ [k] := by
  induction d with
  | nil => rfl
  | cons kv rest ih =>
    simp only [List.map_cons, List.mem_cons] at hk
    push_neg at hk
    rw [dictInsert]
    rw [if_neg (Ne.symm hk.1)]
    simp only [List.map_cons, List.cons_append]
    rw [ih hk.2]

theorem batchGo_keys (sk : Nat) (days : Int) (clock : Nat → Int) (rng : Nat → Nat) :
    ∀ (ids : List (List Nat)) (i : Nat) (licenses : List (List Nat × List Nat)),
    ids.Nodup → (∀ id ∈ ids, id ∉ licenses.map Prod.fst) →
    (batchGo sk days clock rng ids i licenses).map Prod.fst
      = licenses.map Prod.fst ++ ids := by
  intro ids
  induction ids with
  | nil => intro i licenses _ _; simp [batchGo]
  | cons id rest ih =>
    intro i licenses hnd hfresh
    rw [batchGo]
    rw [if_pos (make_license_key_ne_nil sk id days _ _)]
    have hid : id ∉ licenses.map Prod.fst := hfresh id (List.mem_cons_self id rest)
    have hnd' := hnd
    rw [List.nodup_cons] at hnd'
    have hfresh' : ∀ x ∈ rest, x ∉ (dictInsert licenses id
        ((make_license sk id days (fun j => clock (2 * i + j)) (rng i)).1)).map
          Prod.fst := by
      intro x hx
      rw [dictInsert_keys hid]
      simp only [List.mem_append, List.mem_singleton]
      push_neg
      exact ⟨hfresh x (List.mem_cons_of_mem _ hx), fun he => hnd'.1 (he ▸ hx)⟩
    rw [ih (i + 1) _ hnd'.2 hfresh']
    rw [dictInsert_keys hid]
    simp

theorem batch_make_licenses_keys (sk : Nat) (ids : List (List Nat))
    (days : Int) (clock : Nat → Int) (rng : Nat → Nat) (hnd : ids.Nodup) :
    (batch_make_licenses sk ids days clock rng).map Prod.fst = ids := by
  unfold batch_make_licenses
  rw [batchGo_keys sk days clock rng ids 0 [] hnd (by intro id _; simp)]
  rfl

theorem validateJson_total (d : List Nat) :
    (∃ v, validateJson d = Except.ok v) ∨
    validateJson d = Except.error PyExc.keyError ∨
    validateJson d = Except.error PyExc.typeError := by
  unfold validateJson
  repeat' split
  all_goals first
    | exact Or.inl ⟨_, rfl⟩
    | exact Or.inr (Or.inl rfl)
    | exact Or.inr (Or.inr rfl)

theorem validateVerify_total (vk : Nat) (db sg : List Nat) :
    (∃ v, validateVerify vk db sg = Except.ok v) ∨
    validateVerify vk db sg = Except.error PyExc.keyError ∨
    validateVerify vk db sg = Except.error PyExc.typeError := by
  unfold validateVerify
  split
  · exact Or.inl ⟨_, rfl⟩
  split
  · exact validateJson_total _
  · exact Or.inl ⟨_, rfl⟩

theorem validateSplit_total (vk : Nat) (decoded : List Nat) :
    (∃ v, validateSplit vk decoded = Except.ok v) ∨
    validateSplit vk decoded = Except.error PyExc.keyError ∨
    validateSplit vk decoded = Except.error PyExc.typeError := by
  unfold validateSplit
  split
  · exact Or.inl ⟨_, rfl⟩
  · exact validateVerify_total _ _ _

theorem validateB64_total (vk : Nat) (lk : List Nat) :
    (∃ v, validateB64 vk lk = Except.ok v) ∨
    validateB64 vk lk = Except.error PyExc.keyError ∨
    validateB64 vk lk = Except.error PyExc.typeError := by
  unfold validateB64
  split
  · exact Or.inl ⟨_, rfl⟩
  · exact validateSplit_total _ _

theorem validate_wellformed_total (pk : Nat)
    (honc : onCurve (natToBE 96 pk) = true) (lk : List Nat) :
    (∃ v, validate_license lk (get_public_hex pk) = Except.ok v) ∨
    validate_license lk (get_public_hex pk) = Except.error PyExc.keyError ∨
    validate_license lk (get_public_hex pk) = Except.error PyExc.typeError := by
  unfold validate_license get_public_hex
  rw [bytesFromhex_bytesHex (natToBE_isBytes 96 pk)]
  simp only []
  rw [if_pos (natToBE_length 96 pk), if_pos honc]
  exact validateB64_total _ _

theorem lt_two_pow_768 {n : Nat} (h : n < 768) : n < 2 ^ 768 :=
  lt_trans h (Nat.lt_pow_self (by decide) 768)

theorem container_roundtrip {p s : List Nat} (hp : isBytes p) (hs : isBytes s)
    (hdd : noDD s = true) (hhd : s.head? ≠ some 124) :
    decode_container (encode_container p s) = some (p, s) := by
  have hcomb : isBytes (p ++ 124 :: 124 :: s) := by
    intro x hx
    simp only [List.mem_append, List.mem_cons] at hx
    rcases hx with h | h | h | h
    · exact hp x h
    · omega
    · omega
    · exact hs x h
  unfold decode_container encode_container
  rw [b64decodeStr_b64encode hcomb]
  rw [Option.some_bind]
  exact rsplit2_append hdd hhd p

theorem intRepr_inj {d e : Int} (h : intRepr d = intRepr e) : d = e := by
  have hd := parseNumber_intRepr d [] (Or.inl rfl)
  have he := parseNumber_intRepr e [] (Or.inl rfl)
  rw [List.append_nil] at hd he
  rw [h] at hd
  rw [he] at hd
  simp only [Option.some.injEq, Prod.mk.injEq, JVal.num.injEq] at hd
  exact hd.1.symm

theorem jsonDumpsClaims_inj {c c' : Claims} (hm : validStr c.machine_id)
    (hex : validStr c.expires) (his : validStr c.issued)
    (hm' : validStr c'.machine_id) (hex' : validStr c'.expires)
    (his' : validStr c'.issued)
    (h : jsonDumpsClaims c = jsonDumpsClaims c') : c = c' := by
  have h1 := jsonLoads_dumps c hm hex his
  have h2 := jsonLoads_dumps c' hm' hex' his'
  rw [h] at h1
  rw [h2] at h1
  have h3 := toClaims_claimsJVal c
  have h4 := toClaims_claimsJVal c'
  have h5 : claimsJVal c' = claimsJVal c := Option.some.inj h1
  rw [h5] at h4
  rw [h3] at h4
  exact Option.some.inj h4



/-! ## Lemmas: the symbolic signature scheme -/

theorem pow_256_96 : (256 : Nat) ^ 96 = 2 ^ 768 := by
  rw [show (256 : Nat) = 2 ^ 8 from rfl, ← pow_mul]

theorem pow_256_48 : (256 : Nat) ^ 48 = 2 ^ 384 := by
  rw [show (256 : Nat) = 2 ^ 8 from rfl, ← pow_mul]

theorem nistOrder_lt_pow : nistOrder < 256 ^ 48 := by
  rw [pow_256_48]
  decide

theorem mod_nistOrder_lt (a : Nat) : a % nistOrder < 256 ^ 48 :=
  lt_trans (Nat.mod_lt a (by decide)) nistOrder_lt_pow

theorem skSign_length (sk : Nat) (msg : List Nat) (k : Nat) :
    (skSign sk msg k).length = 96 := by
  simp [skSign, natToBE_length]

theorem skSign_isBytes (sk : Nat) (msg : List Nat) (k : Nat) :
    isBytes (skSign sk msg k) := by
  intro x hx
  unfold skSign at hx
  rcases List.mem_append.1 hx with h | h
  · exact natToBE_isBytes 48 _ x h
  · exact natToBE_isBytes 48 _ x h

theorem skSign_take (sk : Nat) (msg : List Nat) (k : Nat) :
    (skSign sk msg k).take 48 = natToBE 48 (k % nistOrder) :=
  List.take_left' (natToBE_length 48 _)

theorem skSign_drop (sk : Nat) (msg : List Nat) (k : Nat) :
    (skSign sk msg k).drop 48
      = natToBE 48 ((sk + sigHash msg + k % nistOrder) % nistOrder) :=
  List.drop_left' (natToBE_length 48 _)

theorem vkVerify_skSign (sk : Nat) (msg : List Nat) (k : Nat) :
    vkVerify sk (skSign sk msg k) msg = true := by
  unfold vkVerify
  rw [skSign_length, skSign_take, skSign_drop]
  rw [beToNat_natToBE 48 _ (mod_nistOrder_lt _), beToNat_natToBE 48 _ (mod_nistOrder_lt _)]
  simp

theorem vkVerify_skSign_ne (sk pk : Nat) (msg : List Nat) (k : Nat)
    (hne : sk % nistOrder ≠ pk % nistOrder) :
    vkVerify pk (skSign sk msg k) msg = false := by
  unfold vkVerify
  rw [skSign_length, skSign_take, skSign_drop]
  rw [beToNat_natToBE 48 _ (mod_nistOrder_lt _), beToNat_natToBE 48 _ (mod_nistOrder_lt _)]
  have hne' : ((sk + sigHash msg + k % nistOrder) % nistOrder
      == (pk + sigHash msg + k % nistOrder) % nistOrder) = false := by
    rw [beq_eq_false_iff_ne]
    intro h
    apply hne
    have h' : sk + (sigHash msg + k % nistOrder)
        ≡ pk + (sigHash msg + k % nistOrder) [MOD nistOrder] := by
      rw [Nat.ModEq, ← Nat.add_assoc, ← Nat.add_assoc]
      exact h
    exact Nat.ModEq.add_right_cancel' _ h'
  rw [hne', Bool.and_false]

theorem rsplit2_some_spec :
    ∀ {l : List Nat} {d sn : List Nat}, rsplit2 l = some (d, sn) →
      l = d ++ 124 :: 124 :: sn := by
  intro l
  induction l with
  | nil => intro d sn h; simp [rsplit2] at h
  | cons a rest ih =>
    intro d sn h
    rw [rsplit2] at h
    cases hr : rsplit2 rest with
    | some pq =>
      obtain ⟨pp, qq⟩ := pq
      rw [hr] at h
      simp only [Option.some.injEq, Prod.mk.injEq] at h
      obtain ⟨h1, h2⟩ := h
      subst h1
      subst h2
      rw [List.cons_append]
      congr 1
      exact ih hr
    | none =>
      rw [hr] at h
      by_cases hc : a = 124 ∧ rest.head? = some 124
      · rw [if_pos hc] at h
        simp only [Option.some.injEq, Prod.mk.injEq] at h
        obtain ⟨h1, h2⟩ := h
        subst h1
        subst h2
        obtain ⟨ha, hhd⟩ := hc
        subst ha
        cases rest with
        | nil => simp at hhd
        | cons b t =>
          simp only [List.head?] at hhd
          injection hhd with hb
          subst hb
          rfl
      · rw [if_neg hc] at h
        exact absurd h (by simp)

theorem rsplit2_none_noDD : ∀ {l : List Nat}, rsplit2 l = none → noDD l = true := by
  intro l
  induction l with
  | nil => intro _; rfl
  | cons a rest ih =>
    intro h
    rw [rsplit2] at h
    cases hr : rsplit2 rest with
    | some pq =>
      obtain ⟨pp, qq⟩ := pq
      rw [hr] at h
      simp at h
    | none =>
      rw [hr] at h
      by_cases hc : a = 124 ∧ rest.head? = some 124
      · rw [if_pos hc] at h
        simp at h
      · cases rest with
        | nil => rfl
        | cons b t =>
          rw [noDD]
          rw [if_neg]
          · exact ih hr
          · intro hbb
            exact hc ⟨hbb.1, by rw [hbb.2]; rfl⟩

theorem noDD_cons_of_false {a : Nat} {rest : List Nat} (h : noDD rest = false) :
    noDD (a :: rest) = false := by
  cases rest with
  | nil => simp [noDD] at h
  | cons b t =>
    rw [noDD]
    split
    · rfl
    · exact h

theorem noDD_append_dd : ∀ (x y : List Nat), noDD (x ++ 124 :: 124 :: y) = false := by
  intro x y
  induction x with
  | nil =>
    rw [List.nil_append, noDD]
    simp
  | cons a t ih =>
    rw [List.cons_append]
    exact noDD_cons_of_false ih

/-! ## Lemmas: the issue/verify pipeline, resumed -/

theorem validate_make_success (sk : Nat) (hsk : sk < 2 ^ 768)
    (honc : onCurve (natToBE 96 sk) = true)
    (mid : List Nat) (hm : validStr mid) (days : Int) (clock : Nat → Int)
    (nonce : Nat)
    (hclean : cleanSig (skSign sk
      (jsonDumpsClaims (licenseData mid days (clock 0) (clock 1))) nonce)) :
    validate_license (make_license sk mid days clock nonce).1 (get_public_hex sk)
      = .ok (.success (claimsJVal (licenseData mid days (clock 0) (clock 1)))) := by
  have hdumpsAscii : ∀ x ∈ jsonDumpsClaims (licenseData mid days (clock 0) (clock 1)),
      x < 128 :=
    mem_jsonDumpsClaims_lt_128 hm (validStr_intRepr _) (validStr_intRepr _)
  have hdumpsBytes : isBytes (jsonDumpsClaims (licenseData mid days (clock 0) (clock 1))) :=
    fun x hx => by have := hdumpsAscii x hx; omega
  have hcombBytes : isBytes (jsonDumpsClaims (licenseData mid days (clock 0) (clock 1))
      ++ 124 :: 124 :: skSign sk (jsonDumpsClaims (licenseData mid days (clock 0)
        (clock 1))) nonce) := by
    intro x hx
    rcases List.mem_append.1 hx with h | h
    · exact hdumpsBytes x h
    · rcases List.mem_cons.1 h with h | h
      · omega
      · rcases List.mem_cons.1 h with h | h
        · omega
        · exact skSign_isBytes sk _ nonce x h
  unfold make_license
  simp only
  rw [licensePayload_eq hm]
  unfold validate_license get_public_hex
  rw [bytesFromhex_bytesHex (natToBE_isBytes 96 sk)]
  simp only []
  rw [if_pos (natToBE_length 96 sk), if_pos honc]
  rw [beToNat_natToBE 96 sk (by rw [pow_256_96]; exact hsk)]
  unfold validateB64
  rw [b64decodeStr_b64encode hcombBytes]
  simp only []
  unfold validateSplit
  rw [rsplit2_append hclean.1 hclean.2]
  simp only []
  unfold validateVerify
  rw [utf8Decode_ascii hdumpsAscii]
  simp only []
  rw [vkVerify_skSign]
  simp only [if_true]
  unfold validateJson
  rw [jsonLoads_dumps _ hm (validStr_intRepr _) (validStr_intRepr _)]
  simp only [claimsJVal]
  have hl1 : lookupLast [(keyMachineId, JVal.str (licenseData mid days (clock 0)
      (clock 1)).machine_id),
      (keyExpires, JVal.str (licenseData mid days (clock 0) (clock 1)).expires),
      (keyIssued, JVal.str (licenseData mid days (clock 0) (clock 1)).issued),
      (keyDaysValid, JVal.num (licenseData mid days (clock 0) (clock 1)).days_valid)]
        keyMachineId
      = some (JVal.str (licenseData mid days (clock 0) (clock 1)).machine_id) := by
    simp [lookupLast, keyMachineId, keyExpires, keyIssued, keyDaysValid]
  have hl2 : lookupLast [(keyMachineId, JVal.str (licenseData mid days (clock 0)
      (clock 1)).machine_id),
      (keyExpires, JVal.str (licenseData mid days (clock 0) (clock 1)).expires),
      (keyIssued, JVal.str (licenseData mid days (clock 0) (clock 1)).issued),
      (keyDaysValid, JVal.num (licenseData mid days (clock 0) (clock 1)).days_valid)]
        keyExpires
      = some (JVal.str (licenseData mid days (clock 0) (clock 1)).expires) := by
    simp [lookupLast, keyMachineId, keyExpires, keyIssued, keyDaysValid]
  rw [hl1]
  simp only []
  rw [hl2]

set_option maxHeartbeats 2000000 in
theorem validate_make_wrong_key (sk pk : Nat) (hpk : pk < 2 ^ 768)
    (honc : onCurve (natToBE 96 pk) = true) (mid : List Nat) (hm : validStr mid)
    (days : Int) (clock : Nat → Int) (nonce : Nat)
    (hne : sk % nistOrder ≠ pk % nistOrder) :
    ∃ m, validate_license (make_license sk mid days clock nonce).1 (get_public_hex pk)
      = .ok (.failure m) := by
  have hdumpsAscii : ∀ x ∈ jsonDumpsClaims (licenseData mid days (clock 0) (clock 1)),
      x < 128 :=
    mem_jsonDumpsClaims_lt_128 hm (validStr_intRepr _) (validStr_intRepr _)
  have hdumpsBytes : isBytes (jsonDumpsClaims (licenseData mid days (clock 0) (clock 1))) :=
    fun x hx => by have := hdumpsAscii x hx; omega
  have hcombBytes : isBytes (jsonDumpsClaims (licenseData mid days (clock 0) (clock 1))
      ++ 124 :: 124 :: skSign sk (jsonDumpsClaims (licenseData mid days (clock 0)
        (clock 1))) nonce) := by
    intro x hx
    rcases List.mem_append.1 hx with h | h
    · exact hdumpsBytes x h
    · rcases List.mem_cons.1 h with h | h
      · omega
      · rcases List.mem_cons.1 h with h | h
        · omega
        · exact skSign_isBytes sk _ nonce x h
  unfold make_license
  simp only
  rw [licensePayload_eq hm]
  unfold validate_license get_public_hex
  rw [bytesFromhex_bytesHex (natToBE_isBytes 96 pk)]
  simp only []
  rw [if_pos (natToBE_length 96 pk), if_pos honc]
  rw [beToNat_natToBE 96 pk (by rw [pow_256_96]; exact hpk)]
  unfold validateB64
  rw [b64decodeStr_b64encode hcombBytes]
  simp only []
  unfold validateSplit
  cases hr : rsplit2 (jsonDumpsClaims (licenseData mid days (clock 0) (clock 1))
      ++ 124 :: 124 :: skSign sk (jsonDumpsClaims (licenseData mid days (clock 0)
        (clock 1))) nonce) with
  | none =>
    have hn := rsplit2_none_noDD hr
    rw [noDD_append_dd] at hn
    exact absurd hn (by simp)
  | some pq =>
    obtain ⟨d, sn⟩ := pq
    simp only []
    have hspec := rsplit2_some_spec hr
    unfold validateVerify
    cases hu : utf8Decode d with
    | none => exact ⟨msgUnicode, rfl⟩
    | some data =>
      simp only []
      have hv : vkVerify pk sn d = false := by
        by_cases hlen : sn.length = 96
        · have hlenS : (skSign sk (jsonDumpsClaims (licenseData mid days (clock 0)
              (clock 1))) nonce).length = 96 := skSign_length sk _ nonce
          have hPd : (jsonDumpsClaims (licenseData mid days (clock 0)
              (clock 1))).length = d.length := by
            have hl := congrArg List.length hspec
            simp only [List.length_append, List.length_cons] at hl
            omega
          obtain ⟨hd, htl⟩ := List.append_inj hspec hPd
          simp only [List.cons.injEq] at htl
          rw [← hd, ← htl.2.2]
          exact vkVerify_skSign_ne sk pk _ nonce hne
        · unfold vkVerify
          have hb : (sn.length == 96) = false := by
            rw [beq_eq_false_iff_ne]
            exact hlen
          rw [hb, Bool.false_and]
      rw [hv]
      exact ⟨msgBadSig, rfl⟩

/-- C1: the spec says `validate_license` succeeds when `now < T` and fails
with `ExpiredLicenseError` when `now >= T`.  Corrected: the code performs
no expiry comparison — validation takes no clock input at all, and a
license issued with a negative validity window (already expired the moment
it is issued) still validates successfully whenever its drawn signature
splits cleanly out of the `b'||'` container; no expiry check ever
intervenes. -/
theorem C1_validate_ignores_expiry (sk : Nat) (hsk : sk < 2 ^ 768)
    (honc : onCurve (natToBE 96 sk) = true) (mid : List Nat) (hm : validStr mid)
    (days : Int) (hdays : days < 0) (clock : Nat → Int) (nonce : Nat)
    (hclean : cleanSig (skSign sk
      (jsonDumpsClaims (licenseData mid days (clock 0) (clock 1))) nonce)) :
    validate_license (make_license sk mid days clock nonce).1 (get_public_hex sk)
      = Except.ok (VOut.success (claimsJVal (licenseData mid days (clock 0) (clock 1)))) :=
  validate_make_success sk hsk honc mid hm days clock nonce hclean

set_option maxRecDepth 400000 in
/-- C1 witness: a real on-curve key and a nonce whose signature is
delimiter-clean; the license's validity is −1 day, yet it validates. -/
theorem C1_witness :
    (100485864924374275350453025532412654615661851333440252719616296457849191271019175119342817980407127790643649351778892 : Nat) < 2 ^ 768 ∧ onCurve (natToBE 96 100485864924374275350453025532412654615661851333440252719616296457849191271019175119342817980407127790643649351778892) = true ∧ validStr [109]
    ∧ (-1 : Int) < 0
    ∧ cleanSig (skSign 100485864924374275350453025532412654615661851333440252719616296457849191271019175119342817980407127790643649351778892 (jsonDumpsClaims (licenseData [109] (-1) 0 0)) 0)
    ∧ validate_license (make_license 100485864924374275350453025532412654615661851333440252719616296457849191271019175119342817980407127790643649351778892 [109] (-1) (fun _ => 0) 0).1
        (get_public_hex 100485864924374275350453025532412654615661851333440252719616296457849191271019175119342817980407127790643649351778892)
      = Except.ok (VOut.success (claimsJVal (licenseData [109] (-1) 0 0))) :=
  ⟨by decide, by decide, by decide, by decide, by decide,
   C1_validate_ignores_expiry 100485864924374275350453025532412654615661851333440252719616296457849191271019175119342817980407127790643649351778892 (by decide) (by decide) [109] (by decide) (-1)
     (by decide) (fun _ => 0) 0 (by decide)⟩

set_option maxRecDepth 400000 in
/-- C1 counterexample to the spec: this license's claims carry an expiry
one day before issuance, yet `validate_license` reports success, not
`ExpiredLicenseError` — no expiry comparison is performed. -/
theorem C1_counterexample :
    validate_license (make_license 100485864924374275350453025532412654615661851333440252719616296457849191271019175119342817980407127790643649351778892 [109] (-1) (fun _ => 0) 0).1 (get_public_hex 100485864924374275350453025532412654615661851333440252719616296457849191271019175119342817980407127790643649351778892)
      = Except.ok (VOut.success (claimsJVal (licenseData [109] (-1) 0 0))) :=
  validate_make_success 100485864924374275350453025532412654615661851333440252719616296457849191271019175119342817980407127790643649351778892 (by decide) (by decide) [109] (by decide) (-1)
    (fun _ => 0) 0 (by decide)

/-- C2: the spec claims the container round-trip holds for all signature
bytes, including signatures containing the delimiter.  Corrected: it holds
exactly on the delimiter-clean side — signatures with no `b'||'` that do
not start with `b'|'`; raw 96-byte `ecdsa` signatures fall outside that
set with probability ≈ 0.5% per issuance. -/
theorem C2_container_roundtrip (p s : List Nat) (hp : isBytes p)
    (hs : isBytes s) (hdd : noDD s = true) (hhd : s.head? ≠ some 124) :
    decode_container (encode_container p s) = some (p, s) :=
  container_roundtrip hp hs hdd hhd

/-- C2 witness: a concrete delimiter-free payload/signature pair
round-tripping. -/
theorem C2_witness :
    isBytes [97] ∧ isBytes [98] ∧ noDD [98] = true ∧ [98].head? ≠ some 124 ∧
    decode_container (encode_container [97] [98]) = some ([97], [98]) :=
  ⟨by decide, by decide, by decide, by decide,
   C2_container_roundtrip [97] [98] (by decide) (by decide) (by decide) (by decide)⟩

/-- C2 counterexample to the spec: a signature equal to the delimiter
itself is not recovered — `rsplit(b'||', 1)` takes the rightmost
occurrence, so the payload absorbs the delimiter bytes and the recovered
signature is empty. -/
theorem C2_counterexample :
    decode_container (encode_container [97] [124, 124]) = some ([97, 124, 124], [])
    ∧ decode_container (encode_container [97] [124, 124]) ≠ some ([97], [124, 124]) := by
  constructor
  · decide
  · decide

/-- C3: the spec claims every issued license verifies against the
issuer's public hex and fails `BadSignatureError` against any other
valid key.  Corrected: the success half holds only when the drawn raw
signature contains no `b'||'` and does not start with `b'|'` — otherwise
`rsplit(b'||', 1)` mis-splits the container and validation fails against
the correct key (see the counterexample).  Against any other valid key
(a distinct on-curve point with a distinct value mod the group order)
the result is always a caught `(False, message)` failure, never
success. -/
theorem C3_signature_soundness (sk : Nat) (hsk : sk < 2 ^ 768)
    (honc : onCurve (natToBE 96 sk) = true) (mid : List Nat) (hm : validStr mid)
    (days : Int) (clock : Nat → Int) (nonce : Nat) :
    (cleanSig (skSign sk
        (jsonDumpsClaims (licenseData mid days (clock 0) (clock 1))) nonce) →
      validate_license (make_license sk mid days clock nonce).1 (get_public_hex sk)
        = Except.ok (VOut.success (claimsJVal (licenseData mid days (clock 0) (clock 1)))))
    ∧ ∀ pk, pk < 2 ^ 768 → onCurve (natToBE 96 pk) = true →
        sk % nistOrder ≠ pk % nistOrder →
        ∃ m, validate_license (make_license sk mid days clock nonce).1 (get_public_hex pk)
          = Except.ok (VOut.failure m) :=
  ⟨fun hclean => validate_make_success sk hsk honc mid hm days clock nonce hclean,
   fun pk hpk honcpk hne =>
     validate_make_wrong_key sk pk hpk honcpk mid hm days clock nonce hne⟩

set_option maxRecDepth 400000 in
/-- C3 witness: two real on-curve keys; the clean-nonce license validates
under the issuer's hex and only fails under the other key's. -/
theorem C3_witness :
    (100485864924374275350453025532412654615661851333440252719616296457849191271019175119342817980407127790643649351778892 : Nat) < 2 ^ 768 ∧ onCurve (natToBE 96 100485864924374275350453025532412654615661851333440252719616296457849191271019175119342817980407127790643649351778892) = true ∧ validStr [109] ∧
    ((cleanSig (skSign 100485864924374275350453025532412654615661851333440252719616296457849191271019175119342817980407127790643649351778892 (jsonDumpsClaims (licenseData [109] 7 0 0)) 0) →
      validate_license (make_license 100485864924374275350453025532412654615661851333440252719616296457849191271019175119342817980407127790643649351778892 [109] 7 (fun _ => 0) 0).1 (get_public_hex 100485864924374275350453025532412654615661851333440252719616296457849191271019175119342817980407127790643649351778892)
        = Except.ok (VOut.success (claimsJVal (licenseData [109] 7 0 0))))
     ∧ ∀ pk, pk < 2 ^ 768 → onCurve (natToBE 96 pk) = true →
        100485864924374275350453025532412654615661851333440252719616296457849191271019175119342817980407127790643649351778892 % nistOrder ≠ pk % nistOrder →
        ∃ m, validate_license (make_license 100485864924374275350453025532412654615661851333440252719616296457849191271019175119342817980407127790643649351778892 [109] 7 (fun _ => 0) 0).1
            (get_public_hex pk)
          = Except.ok (VOut.failure m)) :=
  ⟨by decide, by decide, by decide,
   C3_signature_soundness 100485864924374275350453025532412654615661851333440252719616296457849191271019175119342817980407127790643649351778892 (by decide) (by decide) [109] (by decide) 7
     (fun _ => 0) 0⟩

set_option maxRecDepth 400000 in
/-- C3 counterexample to the spec: with nonce 31868 the signature's `r`
half ends in the two bytes `[124, 124]`, the container mis-splits at that
rightmost `b'||'`, and the license fails `BadSignatureError` against the
very key that issued it. -/
theorem C3_counterexample :
    validate_license (make_license 100485864924374275350453025532412654615661851333440252719616296457849191271019175119342817980407127790643649351778892 [109] 7 (fun _ => 0) 31868).1 (get_public_hex 100485864924374275350453025532412654615661851333440252719616296457849191271019175119342817980407127790643649351778892)
      = Except.ok (VOut.failure msgBadSig) := by rfl

/-- C4: the spec says `make_license` rejects `validity_days <= 0` and empty
machine ids with typed errors, producing no license.  Corrected: the code
validates neither input — with an empty machine id and non-positive
validity it still returns a non-empty (truthy) license key. -/
theorem C4_make_license_no_validation (sk : Nat) (days : Int)
    (hdays : days ≤ 0) (clock : Nat → Int) (nonce : Nat) :
    (make_license sk [] days clock nonce).1 ≠ [] :=
  make_license_key_ne_nil sk [] days clock nonce

/-- C4 witness: a concrete license for the empty machine id with zero
validity. -/
theorem C4_witness : (0 : Int) ≤ 0 ∧ (make_license 1 [] 0 (fun _ => 0) 0).1 ≠ [] :=
  ⟨by decide, C4_make_license_no_validation 1 0 (by decide) (fun _ => 0) 0⟩

set_option maxRecDepth 400000 in
/-- C4 counterexample to the spec: for the empty machine id and negative
validity, a license key is produced (non-empty) and — with this on-curve
key and clean nonce — it even validates successfully; no
`InvalidValidityError` or `InvalidMachineIdError` exists in the code. -/
theorem C4_counterexample :
    (make_license 100485864924374275350453025532412654615661851333440252719616296457849191271019175119342817980407127790643649351778892 [] (-1) (fun _ => 0) 0).1 ≠ []
    ∧ validate_license (make_license 100485864924374275350453025532412654615661851333440252719616296457849191271019175119342817980407127790643649351778892 [] (-1) (fun _ => 0) 0).1 (get_public_hex 100485864924374275350453025532412654615661851333440252719616296457849191271019175119342817980407127790643649351778892)
      = Except.ok (VOut.success (claimsJVal (licenseData [] (-1) 0 0))) :=
  ⟨make_license_key_ne_nil 100485864924374275350453025532412654615661851333440252719616296457849191271019175119342817980407127790643649351778892 [] (-1) (fun _ => 0) 0,
   validate_make_success 100485864924374275350453025532412654615661851333440252719616296457849191271019175119342817980407127790643649351778892 (by decide) (by decide) [] (by decide) (-1)
     (fun _ => 0) 0 (by decide)⟩

/-- C5: the spec says the issuance timestamp is captured exactly once per
call, making issuance deterministic.  Corrected: `make_license` samples
`datetime.datetime.now()` twice (line 89 for `expires`, line 93 for
`issued`), and the license *key* is additionally nonce-dependent
(`SigningKey.sign` draws a random nonce), so only the canonical payload
is deterministic — and it is byte-identical exactly when *both* clock
samples agree. -/
theorem C5_payload_identical_iff_samples (mid : List Nat) (hm : validStr mid)
    (days : Int) (t1 t2 u1 u2 : Int) :
    licensePayload mid days t1 t2 = licensePayload mid days u1 u2
      ↔ (t1 = u1 ∧ t2 = u2) := by
  constructor
  · intro h
    rw [licensePayload_eq hm, licensePayload_eq hm] at h
    have hv1 := licenseData_valid hm days t1 t2
    have hv2 := licenseData_valid hm days u1 u2
    have hc := jsonDumpsClaims_inj hv1.1 hv1.2.1 hv1.2.2 hv2.1 hv2.2.1 hv2.2.2 h
    have he : intRepr (t1 + days * usDay) = intRepr (u1 + days * usDay) :=
      congrArg Claims.expires hc
    have hi : intRepr t2 = intRepr u2 := congrArg Claims.issued hc
    have h1 := intRepr_inj he
    have h2 := intRepr_inj hi
    exact ⟨by omega, h2⟩
  · intro h
    rw [h.1, h.2]

/-- C5 witness: equal samples on both sides give byte-identical canonical
payloads. -/
theorem C5_witness :
    validStr [109] ∧
    (licensePayload [109] 10 0 0 = licensePayload [109] 10 0 0
      ↔ ((0 : Int) = 0 ∧ (0 : Int) = 0)) :=
  ⟨by decide, C5_payload_identical_iff_samples [109] (by decide) 10 0 0 0 0⟩

/-- C5 counterexample to the spec: two issuances whose clocks agree at the
first `now()` sample (microsecond 0) but differ at the second produce
different canonical payloads — the timestamp is re-sampled for the
`issued` field rather than captured once. -/
theorem C5_counterexample : licensePayload [109] 10 0 0 ≠ licensePayload [109] 10 0 1 := by
  rw [licensePayload_eq (by decide) 10 0 0, licensePayload_eq (by decide) 10 0 1]
  intro h
  have hv1 := licenseData_valid (show validStr [109] by decide) 10 0 0
  have hv2 := licenseData_valid (show validStr [109] by decide) 10 0 1
  have hc := jsonDumpsClaims_inj hv1.1 hv1.2.1 hv1.2.2 hv2.1 hv2.2.1 hv2.2.2 h
  have h9 : intRepr (0 : Int) = intRepr 1 := congrArg Claims.issued hc
  exact absurd (intRepr_inj h9) (by decide)

/-- C6: the spec invariant is `expires == issued + validity`.  Corrected:
decoding the canonical payload of `make_license` returns claims whose
`expires` equals the *first* `now()` sample plus the validity window while
`issued` records the *second* sample, so the spec's equation holds only
when the two samples coincide. -/
theorem C6_expires_from_first_sample (mid : List Nat) (hm : validStr mid)
    (days : Int) (clock : Nat → Int) :
    decanonicalize (licensePayload mid days (clock 0) (clock 1))
      = some (licenseData mid days (clock 0) (clock 1))
    ∧ (licenseData mid days (clock 0) (clock 1)).expires
        = intRepr (clock 0 + days * usDay)
    ∧ (licenseData mid days (clock 0) (clock 1)).issued = intRepr (clock 1) := by
  have hv := licenseData_valid hm days (clock 0) (clock 1)
  exact ⟨decanonicalize_canonicalize hv.1 hv.2.1 hv.2.2, rfl, rfl⟩

/-- C6 witness: a concrete issuance whose clock advances between the two
samples. -/
theorem C6_witness :
    validStr [109] ∧
    (decanonicalize (licensePayload [109] 10 0 1) = some (licenseData [109] 10 0 1)
     ∧ (licenseData [109] 10 0 1).expires = intRepr ((0 : Int) + 10 * usDay)
     ∧ (licenseData [109] 10 0 1).issued = intRepr (1 : Int)) :=
  ⟨by decide, C6_expires_from_first_sample [109] (by decide) 10 (fun j => (j : Int))⟩

/-- C6 counterexample to the spec: with first sample 0 and second sample 1
(microseconds), the stored expiry is not `issued + validity` — it equals
the first sample plus the validity window instead. -/
theorem C6_counterexample :
    (licenseData [] 10 0 1).expires ≠ intRepr ((1 : Int) + 10 * usDay)
    ∧ (licenseData [] 10 0 1).issued = intRepr (1 : Int) := by
  constructor
  · intro h
    have : ((0 : Int) + 10 * usDay) = 1 + 10 * usDay := intRepr_inj h
    simp [usDay] at this
  · rfl

/-- C8: canonical claims round-trip, confirmed: for any claim set whose
string fields are valid Python strings, `json.loads` of the UTF-8 decoding
of `json.dumps(...).encode('utf-8')` recovers exactly the same claims. -/
theorem C8_claims_roundtrip (c : Claims) (hm : validStr c.machine_id)
    (hex : validStr c.expires) (his : validStr c.issued) :
    decanonicalize (canonicalize c) = some c :=
  decanonicalize_canonicalize hm hex his

/-- C8 witness: a concrete claim set round-tripping. -/
theorem C8_witness :
    validStr [109] ∧ validStr [50] ∧ validStr [49] ∧
    decanonicalize (canonicalize ⟨[109], [50], [49], 10⟩)
      = some ⟨[109], [50], [49], 10⟩ :=
  ⟨by decide, by decide, by decide,
   C8_claims_roundtrip ⟨[109], [50], [49], 10⟩ (by decide) (by decide) (by decide)⟩

/-- C9: the spec says batch issuance records a per-id failure for invalid
ids such as the empty string.  Corrected: `batch_make_licenses` records no
failures anywhere — every machine id in the input list, the empty id
included, receives a license entry (`make_license` never fails on any id),
and the resulting dict keys are exactly the input ids. -/
theorem C9_batch_records_no_failures (sk : Nat) (ids : List (List Nat))
    (hnd : ids.Nodup) (days : Int) (clock : Nat → Int) (rng : Nat → Nat) :
    (batch_make_licenses sk ids days clock rng).map Prod.fst = ids :=
  batch_make_licenses_keys sk ids days clock rng hnd

/-- C9 witness: the batch `["m1", "", "m3"]` yields entries for all three
ids, the empty one included. -/
theorem C9_witness :
    [[109, 49], [], [109, 51]].Nodup ∧
    (batch_make_licenses 1 [[109, 49], [], [109, 51]] 10 (fun _ => 0)
      (fun _ => 0)).map Prod.fst = [[109, 49], [], [109, 51]] :=
  ⟨by decide,
   C9_batch_records_no_failures 1 [[109, 49], [], [109, 51]] (by decide) 10
     (fun _ => 0) (fun _ => 0)⟩

/-- C9 counterexample to the spec: in the batch `["m1", "", "m3"]` the
empty machine id is *not* recorded as a failure — it gets a license entry
like any other id. -/
theorem C9_counterexample :
    ([] : List Nat) ∈
      (batch_make_licenses 1 [[109, 49], [], [109, 51]] 10 (fun _ => 0)
        (fun _ => 0)).map Prod.fst := by
  rw [batch_make_licenses_keys 1 [[109, 49], [], [109, 51]] 10 (fun _ => 0)
    (fun _ => 0) (by decide)]
  decide

/-- C10: the spec says that with a well-formed on-curve public key every
`validate_license` call returns a value.  Corrected: all listed decoding
failures are indeed caught, but the success path's
`license_data['machine_id']` and `['expires']` subscripts are outside that
guarantee: when a valid signature covers a JSON payload that is not an
object with those keys, an uncaught `KeyError`/`TypeError` escapes. -/
theorem C10_validate_not_total (pk : Nat) (honc : onCurve (natToBE 96 pk) = true)
    (lk : List Nat) :
    (∃ v, validate_license lk (get_public_hex pk) = Except.ok v)
    ∨ validate_license lk (get_public_hex pk) = Except.error PyExc.keyError
    ∨ validate_license lk (get_public_hex pk) = Except.error PyExc.typeError :=
  validate_wellformed_total pk honc lk

set_option maxRecDepth 400000 in
/-- C10 witness: a real on-curve key; the empty license key lands in the
caught-failure branch of the disjunction. -/
theorem C10_witness :
    onCurve (natToBE 96 100485864924374275350453025532412654615661851333440252719616296457849191271019175119342817980407127790643649351778892) = true ∧
    ((∃ v, validate_license [] (get_public_hex 100485864924374275350453025532412654615661851333440252719616296457849191271019175119342817980407127790643649351778892) = Except.ok v)
     ∨ validate_license [] (get_public_hex 100485864924374275350453025532412654615661851333440252719616296457849191271019175119342817980407127790643649351778892) = Except.error PyExc.keyError
     ∨ validate_license [] (get_public_hex 100485864924374275350453025532412654615661851333440252719616296457849191271019175119342817980407127790643649351778892) = Except.error PyExc.typeError) :=
  ⟨by decide, C10_validate_not_total 100485864924374275350453025532412654615661851333440252719616296457849191271019175119342817980407127790643649351778892 (by decide) []⟩

set_option maxRecDepth 400000 in
/-- C10 counterexample to the spec: a correctly signed container whose
payload is the JSON object `{}` passes the signature check and then raises
an uncaught `KeyError` on `license_data['machine_id']` — `validate_license`
is not total. -/
theorem C10_counterexample :
    validate_license (b64encode ([123, 125] ++ 124 :: 124 :: skSign 100485864924374275350453025532412654615661851333440252719616296457849191271019175119342817980407127790643649351778892 [123, 125] 0))
      (get_public_hex 100485864924374275350453025532412654615661851333440252719616296457849191271019175119342817980407127790643649351778892) = Except.error PyExc.keyError := by rfl
